import Mathlib

/-!
# binaryio: a byte-order reader over a byte source

Shallow embedding of `binary_reader.go` together with the parts of the Go
standard library it delegates to (`bytes.Buffer.Read`, `io.ReadAtLeast`,
`io.ReadFull`, `encoding/binary`'s `ByteOrder` and `Read`).

Conventions of the embedding:

* a byte is a `Fin 256`; wider machine integers are `Nat` (unsigned) or `Int`
  (signed), the decoders below never exceed their width;
* a byte source is a state of some type `σ` with a `Read` step
  (`Reader σ`); every operation returns the source state it leaves behind;
* Go's `(value, error)` results are tuples whose error component is an
  `Option Error` (`none` is Go's `nil` error);
* `Exec` records whether a call returns, panics, or is still running when the
  fuel of a loop is used up;
* `make` with a length taken from the caller hands back a slice only up to the
  allocation limit of the machine (`Machine.maxAlloc`) and panics beyond it, as
  it does for a negative length.
-/

namespace Binio

/-- One octet. -/
abbrev Byte := Fin 256

/-- The error values that can reach a caller.  `ErrShortRead` is the package's
own `errors.New("short read")`; `EOF`, `ErrUnexpectedEOF` and `ErrShortBuffer`
are the `io` package's; `other` stands for any further error value a source
may report. -/
inductive Error where
  | ErrShortRead
  | EOF
  | ErrUnexpectedEOF
  | ErrShortBuffer
  | other (code : Nat)
  deriving DecidableEq, Repr

/-- Outcome of running a call: it returned `a`, it panicked (the call was
abandoned without a result), or the loop it runs had not ended when the fuel
was used up. -/
inductive Exec (α : Type) where
  | ret (a : α)
  | panic
  | timeout
  deriving DecidableEq, Repr

/-- What one `Read(p)` call on a source yields: `data` is `p[0:n]` (so the
reported count `n` is `data.length`), `err` the reported error, `next` the
state of the source after the call. -/
structure ReadOut (σ : Type) where
  data : List Byte
  err : Option Error
  next : σ
  deriving DecidableEq, Repr

/-- The `io.Reader` capability: `Read s k` is `s.Read(p)` for a `p` of length `k`. -/
class Reader (σ : Type) where
  Read : σ → Nat → ReadOut σ

/-! ## `bytes.Buffer` -/

/-- A `bytes.Buffer`, represented by its unread portion `buf[off:]`. -/
structure Buffer where
  unread : List Byte
  deriving DecidableEq, Repr

/-- Go's `bytes.NewBuffer(buf)`. -/
def NewBuffer (buf : List Byte) : Buffer := ⟨buf⟩

/-- Go's `(*bytes.Buffer).Read`: an empty buffer answers `0, nil` to an empty
`p` and `0, io.EOF` otherwise; a non-empty one copies `min(len p, unread)`
bytes and advances. -/
def Buffer.Read (b : Buffer) (lenP : Nat) : ReadOut Buffer :=
  match b.unread with
  | [] => if lenP = 0 then ⟨[], none, ⟨[]⟩⟩ else ⟨[], some Error.EOF, ⟨[]⟩⟩
  | x :: xs => ⟨(x :: xs).take lenP, none, ⟨(x :: xs).drop lenP⟩⟩

/-- Go's `(*bytes.Buffer).Len`: the number of unread bytes. -/
def Buffer.Len (b : Buffer) : Int := b.unread.length

instance : Reader Buffer := ⟨Buffer.Read⟩

/-! ## `encoding/binary` byte orders -/

/-- Go's `binary.ByteOrder`, restricted to the two values the constructors use. -/
inductive ByteOrder where
  | BigEndian
  | LittleEndian
  deriving DecidableEq, Repr

/-- The `i`-th byte of `b` as an unsigned integer (`uintN(b[i])`).  The decoders
are only ever applied to slices long enough; a missing byte reads as 0. -/
def byteAt (b : List Byte) (i : Nat) : Nat := (b.getD i 0).val

/-- Go's `ByteOrder.Uint16`. -/
def ByteOrder.Uint16 : ByteOrder → List Byte → Nat
  | .LittleEndian, b => byteAt b 0 ||| byteAt b 1 <<< 8
  | .BigEndian, b => byteAt b 1 ||| byteAt b 0 <<< 8

/-- Go's `ByteOrder.Uint32`. -/
def ByteOrder.Uint32 : ByteOrder → List Byte → Nat
  | .LittleEndian, b =>
      byteAt b 0 ||| byteAt b 1 <<< 8 ||| byteAt b 2 <<< 16 ||| byteAt b 3 <<< 24
  | .BigEndian, b =>
      byteAt b 3 ||| byteAt b 2 <<< 8 ||| byteAt b 1 <<< 16 ||| byteAt b 0 <<< 24

/-- Go's `ByteOrder.Uint64`. -/
def ByteOrder.Uint64 : ByteOrder → List Byte → Nat
  | .LittleEndian, b =>
      byteAt b 0 ||| byteAt b 1 <<< 8 ||| byteAt b 2 <<< 16 ||| byteAt b 3 <<< 24 |||
        byteAt b 4 <<< 32 ||| byteAt b 5 <<< 40 ||| byteAt b 6 <<< 48 ||| byteAt b 7 <<< 56
  | .BigEndian, b =>
      byteAt b 7 ||| byteAt b 6 <<< 8 ||| byteAt b 5 <<< 16 ||| byteAt b 4 <<< 24 |||
        byteAt b 3 <<< 32 ||| byteAt b 2 <<< 40 ||| byteAt b 1 <<< 48 ||| byteAt b 0 <<< 56

/-- Go's conversion `byte(v)`: the low eight bits. -/
def toByte (v : Nat) : Byte := ⟨v % 256, Nat.mod_lt _ (by decide)⟩

/-- Go's `ByteOrder.PutUint32`, returning the four bytes written. -/
def ByteOrder.PutUint32 : ByteOrder → Nat → List Byte
  | .LittleEndian, v => [toByte v, toByte (v >>> 8), toByte (v >>> 16), toByte (v >>> 24)]
  | .BigEndian, v => [toByte (v >>> 24), toByte (v >>> 16), toByte (v >>> 8), toByte v]

/-- Go's conversion `intN(u)` of an N-bit unsigned value (two's complement). -/
def toSigned (bits : Nat) (u : Nat) : Int :=
  if u % 2 ^ bits < 2 ^ (bits - 1) then (u % 2 ^ bits : Nat) else (u % 2 ^ bits : Nat) - 2 ^ bits

/-- Go's conversion `uint32(v)` of an `int32`. -/
def toUint32 (v : Int) : Nat := (v % 2 ^ 32).toNat

/-! ## `io.ReadAtLeast` and `io.ReadFull` -/

/-- The loop of `io.ReadAtLeast`,
`for n < min && err == nil { nn, err = r.Read(buf[n:]); n += nn }`,
with `acc = buf[0:n]`.  One unit of fuel pays for one `Read` call. -/
def ReadAtLeastLoop {σ : Type} [Reader σ] (lenBuf min : Nat) :
    Nat → σ → List Byte → Option Error → Exec (List Byte × Option Error × σ)
  | _, r, acc, some e => Exec.ret (acc, some e, r)
  | 0, r, acc, none => if acc.length < min then Exec.timeout else Exec.ret (acc, none, r)
  | fuel + 1, r, acc, none =>
      if acc.length < min then
        ReadAtLeastLoop lenBuf min fuel (Reader.Read r (lenBuf - acc.length)).next
          (acc ++ (Reader.Read r (lenBuf - acc.length)).data)
          (Reader.Read r (lenBuf - acc.length)).err
      else Exec.ret (acc, none, r)

/-- Go's `io.ReadAtLeast(r, buf, min)` for a `buf` of length `lenBuf`; the
result carries `buf[0:n]`, the error and the source state. -/
def ReadAtLeast {σ : Type} [Reader σ] (fuel : Nat) (r : σ) (lenBuf min : Nat) :
    Exec (List Byte × Option Error × σ) :=
  if lenBuf < min then Exec.ret ([], some Error.ErrShortBuffer, r)
  else
    match ReadAtLeastLoop lenBuf min fuel r [] none with
    | Exec.ret (acc, err, r1) =>
        if acc.length ≥ min then Exec.ret (acc, none, r1)
        else if acc.length > 0 ∧ err = some Error.EOF then
          Exec.ret (acc, some Error.ErrUnexpectedEOF, r1)
        else Exec.ret (acc, err, r1)
    | Exec.panic => Exec.panic
    | Exec.timeout => Exec.timeout

/-- Go's `io.ReadFull(r, buf)`. -/
def ReadFull {σ : Type} [Reader σ] (fuel : Nat) (r : σ) (lenBuf : Nat) :
    Exec (List Byte × Option Error × σ) :=
  ReadAtLeast fuel r lenBuf lenBuf

/-- The part of `binary.Read(r, order, data)` that does not depend on the type
of `data`: allocate `size` bytes, fill them with `io.ReadFull`, and hand either
the error or the filled bytes to the decoding step. -/
def binaryRead {σ : Type} [Reader σ] (fuel : Nat) (r : σ) (size : Nat) :
    Exec (Except Error (List Byte) × σ) :=
  match ReadFull fuel r size with
  | Exec.ret (_, some e, r1) => Exec.ret (Except.error e, r1)
  | Exec.ret (bs, none, r1) => Exec.ret (Except.ok bs, r1)
  | Exec.panic => Exec.panic
  | Exec.timeout => Exec.timeout

/-! ## The readers of `binary_reader.go` -/

/-- The struct `BinaryReader`. -/
structure BinaryReader (σ : Type) where
  raw : σ
  endian : ByteOrder
  deriving DecidableEq, Repr

/-- The struct `BinaryBufferReader`.  Its field `buffer` is the very object
stored in `raw`, so one buffer state stands for both. -/
structure BinaryBufferReader where
  toBinaryReader : BinaryReader Buffer
  deriving DecidableEq, Repr

/-- Source function `BigEndianBufferReader`. -/
def BigEndianBufferReader (buf : List Byte) : BinaryBufferReader :=
  ⟨⟨NewBuffer buf, ByteOrder.BigEndian⟩⟩

/-- Source function `LittleEndianBufferReader`. -/
def LittleEndianBufferReader (buf : List Byte) : BinaryBufferReader :=
  ⟨⟨NewBuffer buf, ByteOrder.LittleEndian⟩⟩

/-- Source function `BigEndianReaderFrom`. -/
def BigEndianReaderFrom {σ : Type} (reader : σ) : BinaryReader σ :=
  ⟨reader, ByteOrder.BigEndian⟩

/-- Source function `LittleEndianReaderFrom`. -/
def LittleEndianReaderFrom {σ : Type} (reader : σ) : BinaryReader σ :=
  ⟨reader, ByteOrder.LittleEndian⟩

/-- Source method `BinaryBufferReader.Len`: its body is the call `reader.Len()`
on the same receiver, so each unit of fuel is spent on one more such call. -/
def BinaryBufferReader.Len : Nat → BinaryBufferReader → Exec Int
  | 0, _ => Exec.timeout
  | fuel + 1, reader => BinaryBufferReader.Len fuel reader

/-- Source method `BinaryReader.ReadByte`.  Its `make([]byte, 1)` is of a fixed
size and taken to succeed. -/
def BinaryReader.ReadByte {σ : Type} [Reader σ] (reader : BinaryReader σ) :
    Byte × Option Error × BinaryReader σ :=
  match (Reader.Read reader.raw 1).err with
  | some e => (0, some e, ⟨(Reader.Read reader.raw 1).next, reader.endian⟩)
  | none =>
      if (Reader.Read reader.raw 1).data.length ≠ 1 then
        (0, some Error.ErrShortRead, ⟨(Reader.Read reader.raw 1).next, reader.endian⟩)
      else
        ((Reader.Read reader.raw 1).data.getD 0 0, none,
          ⟨(Reader.Read reader.raw 1).next, reader.endian⟩)

/-- Go's runtime constant `maxAlloc` on its 64-bit platforms with 48 address
bits (linux/amd64 among them), the largest it takes on any platform: `make`
panics for a slice of more bytes. -/
def maxAlloc64 : Nat := 2 ^ 48

/-- The machine the program runs on, as far as `make` is concerned: `maxAlloc`
is the largest size in bytes of a slice that `make` hands back on it, which is
never above the runtime's own bound. -/
structure Machine where
  maxAlloc : Nat
  maxAlloc_le : maxAlloc ≤ maxAlloc64

/-- A 64-bit machine on which `make` serves every size the runtime allows. -/
def machine64 : Machine := ⟨maxAlloc64, Nat.le_refl _⟩

/-- Source method `BinaryReader.ReadBytes`.  For a negative `expected` and for
one above `m.maxAlloc` the call `make([]byte, expected)` does not return
(`panic: makeslice: len out of range`, or the runtime gives up for want of
memory) and no `Read` call is made.  The returned slice is `none` for Go's
`nil`. -/
def BinaryReader.ReadBytes {σ : Type} [Reader σ] (m : Machine) (reader : BinaryReader σ)
    (expected : Int) : Exec (Option (List Byte) × Option Error × BinaryReader σ) :=
  if expected < 0 ∨ (m.maxAlloc : Int) < expected then Exec.panic
  else
    match (Reader.Read reader.raw expected.toNat).err with
    | some e =>
        Exec.ret (none, some e, ⟨(Reader.Read reader.raw expected.toNat).next, reader.endian⟩)
    | none =>
        if ((Reader.Read reader.raw expected.toNat).data.length : Int) ≠ expected then
          Exec.ret (none, some Error.ErrShortRead,
            ⟨(Reader.Read reader.raw expected.toNat).next, reader.endian⟩)
        else
          Exec.ret (some (Reader.Read reader.raw expected.toNat).data, none,
            ⟨(Reader.Read reader.raw expected.toNat).next, reader.endian⟩)

/-- Source method `BinaryReader.Skip`.  As in `ReadBytes`, `make([]byte, count)`
panics for a negative `count` and for one above `m.maxAlloc`, before any `Read`
call is made. -/
def BinaryReader.Skip {σ : Type} [Reader σ] (m : Machine) (reader : BinaryReader σ)
    (count : Int) : Exec (Option Error × BinaryReader σ) :=
  if count < 0 ∨ (m.maxAlloc : Int) < count then Exec.panic
  else
    match (Reader.Read reader.raw count.toNat).err with
    | some e => Exec.ret (some e, ⟨(Reader.Read reader.raw count.toNat).next, reader.endian⟩)
    | none =>
        if ((Reader.Read reader.raw count.toNat).data.length : Int) ≠ count then
          Exec.ret (some Error.ErrShortRead,
            ⟨(Reader.Read reader.raw count.toNat).next, reader.endian⟩)
        else Exec.ret (none, ⟨(Reader.Read reader.raw count.toNat).next, reader.endian⟩)

/-- The shape shared by the six scalar reads: `var value T` (zero),
`err = binary.Read(reader.raw, reader.endian, &value)`, `return value, err`,
where `binary.Read` stores `decode bs` into `value` when it has its `size` bytes. -/
def readScalar {σ α : Type} [Reader σ] (zero : α) (size : Nat) (decode : List Byte → α)
    (fuel : Nat) (reader : BinaryReader σ) : Exec (α × Option Error × BinaryReader σ) :=
  match binaryRead fuel reader.raw size with
  | Exec.ret (Except.ok bs, r1) => Exec.ret (decode bs, none, ⟨r1, reader.endian⟩)
  | Exec.ret (Except.error e, r1) => Exec.ret (zero, some e, ⟨r1, reader.endian⟩)
  | Exec.panic => Exec.panic
  | Exec.timeout => Exec.timeout

/-- Source method `BinaryReader.ReadUint16`. -/
def BinaryReader.ReadUint16 {σ : Type} [Reader σ] (fuel : Nat) (reader : BinaryReader σ) :
    Exec (Nat × Option Error × BinaryReader σ) :=
  readScalar 0 2 reader.endian.Uint16 fuel reader

/-- Source method `BinaryReader.ReadInt16`. -/
def BinaryReader.ReadInt16 {σ : Type} [Reader σ] (fuel : Nat) (reader : BinaryReader σ) :
    Exec (Int × Option Error × BinaryReader σ) :=
  readScalar 0 2 (fun bs => toSigned 16 (reader.endian.Uint16 bs)) fuel reader

/-- Source method `BinaryReader.ReadUint32`. -/
def BinaryReader.ReadUint32 {σ : Type} [Reader σ] (fuel : Nat) (reader : BinaryReader σ) :
    Exec (Nat × Option Error × BinaryReader σ) :=
  readScalar 0 4 reader.endian.Uint32 fuel reader

/-- Source method `BinaryReader.ReadInt32`. -/
def BinaryReader.ReadInt32 {σ : Type} [Reader σ] (fuel : Nat) (reader : BinaryReader σ) :
    Exec (Int × Option Error × BinaryReader σ) :=
  readScalar 0 4 (fun bs => toSigned 32 (reader.endian.Uint32 bs)) fuel reader

/-- Source method `BinaryReader.ReadUint64`. -/
def BinaryReader.ReadUint64 {σ : Type} [Reader σ] (fuel : Nat) (reader : BinaryReader σ) :
    Exec (Nat × Option Error × BinaryReader σ) :=
  readScalar 0 8 reader.endian.Uint64 fuel reader

/-- Source method `BinaryReader.ReadInt64`. -/
def BinaryReader.ReadInt64 {σ : Type} [Reader σ] (fuel : Nat) (reader : BinaryReader σ) :
    Exec (Int × Option Error × BinaryReader σ) :=
  readScalar 0 8 (fun bs => toSigned 64 (reader.endian.Uint64 bs)) fuel reader

/-- The shape shared by the six array reads: `value = make([]T, expected)`
(zeros; `make` panics for a negative length and for a slice of more than
`m.maxAlloc` bytes, `size` being the size of `T`), `err = binary.Read(reader.raw,
reader.endian, &value)`, `return value, err`.  `binary.Read` asks for
`size * expected` bytes and on success stores the decode of
`bs[size*i:]` into `value[i]`; on failure `value` keeps its zeros. -/
def readArray {σ α : Type} [Reader σ] (m : Machine) (zero : α) (size : Nat)
    (decode : List Byte → α) (fuel : Nat) (reader : BinaryReader σ) (expected : Int) :
    Exec (List α × Option Error × BinaryReader σ) :=
  if expected < 0 ∨ m.maxAlloc < size * expected.toNat then Exec.panic
  else
    match binaryRead fuel reader.raw (size * expected.toNat) with
    | Exec.ret (Except.ok bs, r1) =>
        Exec.ret ((List.range expected.toNat).map (fun i => decode (bs.drop (size * i))), none,
          ⟨r1, reader.endian⟩)
    | Exec.ret (Except.error e, r1) =>
        Exec.ret (List.replicate expected.toNat zero, some e, ⟨r1, reader.endian⟩)
    | Exec.panic => Exec.panic
    | Exec.timeout => Exec.timeout

/-- Source method `BinaryReader.ReadUint16s`. -/
def BinaryReader.ReadUint16s {σ : Type} [Reader σ] (m : Machine) (fuel : Nat)
    (reader : BinaryReader σ) (expected : Int) :
    Exec (List Nat × Option Error × BinaryReader σ) :=
  readArray m 0 2 reader.endian.Uint16 fuel reader expected

/-- Source method `BinaryReader.ReadInt16s`. -/
def BinaryReader.ReadInt16s {σ : Type} [Reader σ] (m : Machine) (fuel : Nat)
    (reader : BinaryReader σ) (expected : Int) :
    Exec (List Int × Option Error × BinaryReader σ) :=
  readArray m 0 2 (fun bs => toSigned 16 (reader.endian.Uint16 bs)) fuel reader expected

/-- Source method `BinaryReader.ReadUint32s`. -/
def BinaryReader.ReadUint32s {σ : Type} [Reader σ] (m : Machine) (fuel : Nat)
    (reader : BinaryReader σ) (expected : Int) :
    Exec (List Nat × Option Error × BinaryReader σ) :=
  readArray m 0 4 reader.endian.Uint32 fuel reader expected

/-- Source method `BinaryReader.ReadInt32s`. -/
def BinaryReader.ReadInt32s {σ : Type} [Reader σ] (m : Machine) (fuel : Nat)
    (reader : BinaryReader σ) (expected : Int) :
    Exec (List Int × Option Error × BinaryReader σ) :=
  readArray m 0 4 (fun bs => toSigned 32 (reader.endian.Uint32 bs)) fuel reader expected

/-- Source method `BinaryReader.ReadUint64s`. -/
def BinaryReader.ReadUint64s {σ : Type} [Reader σ] (m : Machine) (fuel : Nat)
    (reader : BinaryReader σ) (expected : Int) :
    Exec (List Nat × Option Error × BinaryReader σ) :=
  readArray m 0 8 reader.endian.Uint64 fuel reader expected

/-- Source method `BinaryReader.ReadInt64s`. -/
def BinaryReader.ReadInt64s {σ : Type} [Reader σ] (m : Machine) (fuel : Nat)
    (reader : BinaryReader σ) (expected : Int) :
    Exec (List Int × Option Error × BinaryReader σ) :=
  readArray m 0 8 (fun bs => toSigned 64 (reader.endian.Uint64 bs)) fuel reader expected

/-! ## Two sources used to observe how a reader is driven -/

/-- Go's `iotest.OneByteReader(r)`: every non-empty `Read` asks `r` for one byte. -/
structure OneByteReader (σ : Type) where
  r : σ
  deriving DecidableEq, Repr

instance {σ : Type} [Reader σ] : Reader (OneByteReader σ) where
  Read s lenP :=
    if lenP = 0 then ⟨[], none, s⟩
    else ⟨(Reader.Read s.r 1).data, (Reader.Read s.r 1).err, ⟨(Reader.Read s.r 1).next⟩⟩

/-- A source that forwards every `Read` to `r` and counts the calls it received. -/
structure CountingReader (σ : Type) where
  r : σ
  calls : Nat
  deriving DecidableEq, Repr

instance {σ : Type} [Reader σ] : Reader (CountingReader σ) where
  Read s lenP :=
    ⟨(Reader.Read s.r lenP).data, (Reader.Read s.r lenP).err,
      ⟨(Reader.Read s.r lenP).next, s.calls + 1⟩⟩

/-- A reader of byte order `e` (as `BigEndianReaderFrom` / `LittleEndianReaderFrom`
build it) over a source that holds `b`, hands out one byte per `Read` call and
has counted `c` calls so far. -/
def oneByteCounting (b : List Byte) (c : Nat) (e : ByteOrder) :
    BinaryReader (CountingReader (OneByteReader Buffer)) :=
  ⟨⟨⟨NewBuffer b⟩, c⟩, e⟩

/-- What `k` scalar reads made one after the other give: the values read, in
order, then the reader the last one left behind.  `read` is one scalar read;
the run stops at the first read that reports an error. -/
def successiveReads {σ α : Type}
    (read : BinaryReader σ → Exec (α × Option Error × BinaryReader σ)) :
    Nat → BinaryReader σ → Exec (List α × Option Error × BinaryReader σ)
  | 0, reader => Exec.ret ([], none, reader)
  | k + 1, reader =>
      match read reader with
      | Exec.ret (v, none, r1) =>
          match successiveReads read k r1 with
          | Exec.ret (vs, err, r2) => Exec.ret (v :: vs, err, r2)
          | Exec.panic => Exec.panic
          | Exec.timeout => Exec.timeout
      | Exec.ret (_, some e, r1) => Exec.ret ([], some e, r1)
      | Exec.panic => Exec.panic
      | Exec.timeout => Exec.timeout

/-- A source whose every `Read` hands over up to `len(p)` bytes of `data`
and reports `err` alongside, without changing. -/
structure DataErrReader where
  data : List Byte
  err : Option Error
  deriving DecidableEq, Repr

instance : Reader DataErrReader where
  Read s lenP := ⟨s.data.take lenP, s.err, s⟩

/-! ## Lemmas on the standard-library layer -/

/-- Or-ing a value shifted past the bits of `x` onto `x` adds it. -/
theorem lor_shiftLeft_eq_add (x a k : Nat) (h : x < 2 ^ k) : x ||| a <<< k = x + a * 2 ^ k := by
  rw [Nat.shiftLeft_eq, Nat.lor_comm, Nat.mul_comm a, ← Nat.mul_add_lt_is_or h, Nat.add_comm]

theorem byteAt_lt (b : List Byte) (i : Nat) : byteAt b i < 256 := (b.getD i 0).isLt

/-- A buffer holding at least `n` bytes serves a `Read` of `n` bytes in full. -/
theorem Buffer_Read_of_le (b : List Byte) (n : Nat) (h : n ≤ b.length) :
    Reader.Read (Buffer.mk b) n = ⟨b.take n, none, ⟨b.drop n⟩⟩ := by
  cases b with
  | nil =>
      have hn : n = 0 := by simpa using h
      subst hn
      simp [Reader.Read, Buffer.Read]
  | cons x xs => simp [Reader.Read, Buffer.Read]

/-- An exhausted buffer answers a non-empty `Read` with `0, io.EOF`. -/
theorem Buffer_Read_nil (n : Nat) (h : 0 < n) :
    Reader.Read (Buffer.mk []) n = ⟨[], some Error.EOF, ⟨[]⟩⟩ := by
  have hn : n ≠ 0 := by omega
  simp [Reader.Read, Buffer.Read, hn]

/-- A non-empty buffer holding fewer bytes than asked hands over all it has. -/
theorem Buffer_Read_short (b : List Byte) (n : Nat) (h0 : b ≠ []) (h : b.length ≤ n) :
    Reader.Read (Buffer.mk b) n = ⟨b, none, ⟨[]⟩⟩ := by
  cases b with
  | nil => exact absurd rfl h0
  | cons x xs =>
      simp only [Reader.Read, Buffer.Read]
      rw [List.take_of_length_le h, List.drop_of_length_le h]

/-- The loop of `io.ReadAtLeast` stops at once when enough bytes are in. -/
theorem ReadAtLeastLoop_done {σ : Type} [Reader σ] (lenBuf min fuel : Nat) (r : σ)
    (acc : List Byte) (h : min ≤ acc.length) :
    ReadAtLeastLoop lenBuf min fuel r acc none = Exec.ret (acc, none, r) := by
  have hlt : ¬ acc.length < min := by omega
  cases fuel <;> simp [ReadAtLeastLoop, hlt]

/-- The loop of `io.ReadAtLeast` stops at once when an error is pending. -/
theorem ReadAtLeastLoop_err {σ : Type} [Reader σ] (lenBuf min fuel : Nat) (r : σ)
    (acc : List Byte) (e : Error) :
    ReadAtLeastLoop lenBuf min fuel r acc (some e) = Exec.ret (acc, some e, r) := by
  cases fuel <;> simp [ReadAtLeastLoop]

/-- `io.ReadFull` on a buffer holding at least `n` bytes: one `Read` fills the request. -/
theorem ReadFull_Buffer_of_le (b : List Byte) (n fuel : Nat) (h : n ≤ b.length) :
    ReadFull (fuel + 1) (Buffer.mk b) n = Exec.ret (b.take n, none, ⟨b.drop n⟩) := by
  by_cases hn : n = 0
  · subst hn
    simp [ReadFull, ReadAtLeast, ReadAtLeastLoop]
  · have hpos : 0 < n := Nat.pos_of_ne_zero hn
    have hlen : (b.take n).length = n := by simp [List.length_take, h]
    simp only [ReadFull, ReadAtLeast, ReadAtLeastLoop, lt_irrefl, if_false, List.length_nil,
      hpos, if_true, Nat.sub_zero, List.nil_append, Buffer_Read_of_le b n h]
    rw [ReadAtLeastLoop_done _ _ _ _ _ (le_of_eq hlen.symm)]
    simp [hlen]

theorem binaryRead_Buffer_of_le (b : List Byte) (n fuel : Nat) (h : n ≤ b.length) :
    binaryRead (fuel + 1) (Buffer.mk b) n = Exec.ret (Except.ok (b.take n), ⟨b.drop n⟩) := by
  simp [binaryRead, ReadFull_Buffer_of_le b n fuel h]

/-- A scalar read on a buffer holding at least `size` bytes decodes the first
`size` bytes and leaves the rest unread. -/
theorem readScalar_Buffer_of_le {α : Type} (zero : α) (size : Nat) (decode : List Byte → α)
    (e : ByteOrder) (b : List Byte) (fuel : Nat) (h : size ≤ b.length) :
    readScalar zero size decode (fuel + 1) (BinaryReader.mk (Buffer.mk b) e) =
      Exec.ret (decode (b.take size), none, ⟨⟨b.drop size⟩, e⟩) := by
  simp [readScalar, binaryRead_Buffer_of_le b size fuel h]

theorem Uint16_BigEndian_eq (b : List Byte) :
    ByteOrder.BigEndian.Uint16 b = byteAt b 0 * 256 + byteAt b 1 := by
  simp only [ByteOrder.Uint16]
  rw [lor_shiftLeft_eq_add _ _ _ (byteAt_lt b 1)]
  omega

theorem Uint16_LittleEndian_eq (b : List Byte) :
    ByteOrder.LittleEndian.Uint16 b = byteAt b 1 * 256 + byteAt b 0 := by
  simp only [ByteOrder.Uint16]
  rw [lor_shiftLeft_eq_add _ _ _ (byteAt_lt b 0)]
  omega

theorem byteAt_take (b : List Byte) (n i : Nat) (h : i < n) :
    byteAt (b.take n) i = byteAt b i := by
  simp [byteAt, List.getD_eq_getElem?_getD, List.getElem?_take, h]

theorem byteAt_eq_getElem (b : List Byte) (i : Nat) (h : i < b.length) :
    byteAt b i = (b.get ⟨i, h⟩).val := by
  simp [byteAt, List.getD_eq_getElem?_getD, List.getElem?_eq_getElem h]

theorem byteAt_drop (b : List Byte) (n i : Nat) : byteAt (b.drop n) i = byteAt b (n + i) := by
  simp [byteAt, List.getD_eq_getElem?_getD, List.getElem?_drop]

theorem Uint32_BigEndian_eq (b : List Byte) :
    ByteOrder.BigEndian.Uint32 b =
      byteAt b 0 * 2 ^ 24 + byteAt b 1 * 2 ^ 16 + byteAt b 2 * 2 ^ 8 + byteAt b 3 := by
  have h0 := byteAt_lt b 0
  have h1 := byteAt_lt b 1
  have h2 := byteAt_lt b 2
  have h3 := byteAt_lt b 3
  simp only [ByteOrder.Uint32]
  rw [lor_shiftLeft_eq_add _ _ 8 (by omega), lor_shiftLeft_eq_add _ _ 16 (by omega),
    lor_shiftLeft_eq_add _ _ 24 (by omega)]
  omega

theorem Uint32_LittleEndian_eq (b : List Byte) :
    ByteOrder.LittleEndian.Uint32 b =
      byteAt b 0 + byteAt b 1 * 2 ^ 8 + byteAt b 2 * 2 ^ 16 + byteAt b 3 * 2 ^ 24 := by
  have h0 := byteAt_lt b 0
  have h1 := byteAt_lt b 1
  have h2 := byteAt_lt b 2
  have h3 := byteAt_lt b 3
  simp only [ByteOrder.Uint32]
  rw [lor_shiftLeft_eq_add _ _ 8 (by omega), lor_shiftLeft_eq_add _ _ 16 (by omega),
    lor_shiftLeft_eq_add _ _ 24 (by omega)]

/-- `ReadUint16` on a buffer holding at least two bytes, big-endian. -/
theorem ReadUint16_Buffer_BigEndian (b : List Byte) (h : 2 ≤ b.length) (fuel : Nat) :
    (BinaryReader.mk (Buffer.mk b) ByteOrder.BigEndian).ReadUint16 (fuel + 1) =
      Exec.ret (byteAt b 0 * 256 + byteAt b 1, none, ⟨⟨b.drop 2⟩, ByteOrder.BigEndian⟩) := by
  simp only [BinaryReader.ReadUint16]
  rw [readScalar_Buffer_of_le _ _ _ _ _ _ h, Uint16_BigEndian_eq,
    byteAt_take _ _ _ (by omega), byteAt_take _ _ _ (by omega)]

/-- `ReadUint16` on a buffer holding at least two bytes, little-endian. -/
theorem ReadUint16_Buffer_LittleEndian (b : List Byte) (h : 2 ≤ b.length) (fuel : Nat) :
    (BinaryReader.mk (Buffer.mk b) ByteOrder.LittleEndian).ReadUint16 (fuel + 1) =
      Exec.ret (byteAt b 1 * 256 + byteAt b 0, none, ⟨⟨b.drop 2⟩, ByteOrder.LittleEndian⟩) := by
  simp only [BinaryReader.ReadUint16]
  rw [readScalar_Buffer_of_le _ _ _ _ _ _ h, Uint16_LittleEndian_eq,
    byteAt_take _ _ _ (by omega), byteAt_take _ _ _ (by omega)]

/-- Decoding with either order what `PutUint32` wrote in that order gives the value back. -/
theorem Uint32_PutUint32 (e : ByteOrder) (u : Nat) (h : u < 2 ^ 32) :
    e.Uint32 (e.PutUint32 u) = u := by
  cases e
  · rw [Uint32_BigEndian_eq]
    simp only [ByteOrder.PutUint32, byteAt, List.getD_cons_zero, List.getD_cons_succ, toByte,
      Nat.shiftRight_eq_div_pow]
    omega
  · rw [Uint32_LittleEndian_eq]
    simp only [ByteOrder.PutUint32, byteAt, List.getD_cons_zero, List.getD_cons_succ, toByte,
      Nat.shiftRight_eq_div_pow]
    omega

theorem toUint32_lt (v : Int) : toUint32 v < 2 ^ 32 := by
  unfold toUint32
  omega

theorem toSigned_toUint32 (v : Int) (hlo : -2147483648 ≤ v) (hhi : v ≤ 2147483647) :
    toSigned 32 (toUint32 v) = v := by
  unfold toSigned toUint32
  split <;> omega

theorem length_PutUint32 (e : ByteOrder) (u : Nat) : (e.PutUint32 u).length = 4 := by
  cases e <;> rfl

/-- `ReadBytes` on a buffer holding at least `N` bytes. -/
theorem ReadBytes_Buffer_of_le (m : Machine) (e : ByteOrder) (b : List Byte) (N : Int)
    (h0 : 0 ≤ N) (h : N ≤ b.length) (hm : N ≤ m.maxAlloc) :
    (BinaryReader.mk (Buffer.mk b) e).ReadBytes m N =
      Exec.ret (some (b.take N.toNat), none, ⟨⟨b.drop N.toNat⟩, e⟩) := by
  have hn : N.toNat ≤ b.length := by omega
  have hlen : (((b.take N.toNat).length : Nat) : Int) = N := by
    rw [List.length_take, Nat.min_eq_left hn]
    omega
  have hmk : ¬ (N < 0 ∨ (m.maxAlloc : Int) < N) := by omega
  unfold BinaryReader.ReadBytes
  rw [if_neg hmk]
  simp only [Buffer_Read_of_le b N.toNat hn]
  rw [if_neg (not_not.mpr hlen)]

/-- `Skip` when the source's read call hands over fewer bytes than asked. -/
theorem Skip_of_short_read {σ : Type} [Reader σ] (m : Machine) (reader : BinaryReader σ)
    (N : Int) (hm : N ≤ m.maxAlloc)
    (h : ((Reader.Read reader.raw N.toNat).data.length : Int) < N) :
    reader.Skip m N =
      Exec.ret (some ((Reader.Read reader.raw N.toNat).err.getD Error.ErrShortRead),
        ⟨(Reader.Read reader.raw N.toNat).next, reader.endian⟩) := by
  have h0 : ¬ (N < 0 ∨ (m.maxAlloc : Int) < N) := by omega
  have hne : ((Reader.Read reader.raw N.toNat).data.length : Int) ≠ N := by omega
  unfold BinaryReader.Skip
  rw [if_neg h0]
  cases herr : (Reader.Read reader.raw N.toNat).err with
  | none => simp [hne]
  | some e => simp

/-- `Skip` on a buffer holding fewer bytes than asked. -/
theorem Skip_Buffer_short (m : Machine) (e : ByteOrder) (b : List Byte) (N : Int)
    (hm : N ≤ m.maxAlloc) (h : (b.length : Int) < N) :
    (BinaryReader.mk (Buffer.mk b) e).Skip m N =
      Exec.ret (some (if b = [] then Error.EOF else Error.ErrShortRead), ⟨⟨[]⟩, e⟩) := by
  by_cases hb : b = []
  · subst hb
    have hpos : 0 < N.toNat := by simp only [List.length_nil] at h; omega
    have hr := Buffer_Read_nil N.toNat hpos
    rw [Skip_of_short_read m _ _ hm (by simp only [hr, List.length_nil]; omega)]
    simp [hr]
  · have hle : b.length ≤ N.toNat := by omega
    have hr := Buffer_Read_short b N.toNat hb hle
    rw [Skip_of_short_read m _ _ hm (by simp only [hr]; omega)]
    simp [hr, hb]

/-- One `Read` of a one-byte-per-call, call-counting source over a non-empty buffer. -/
theorem Read_counting_oneByte_cons (x : Byte) (xs : List Byte) (c k : Nat) (hk : k ≠ 0) :
    Reader.Read (CountingReader.mk (OneByteReader.mk (Buffer.mk (x :: xs))) c) k =
      ⟨[x], none, ⟨⟨⟨xs⟩⟩, c + 1⟩⟩ := by
  simp [Reader.Read, Buffer.Read, hk]

/-- The loop of `io.ReadAtLeast` over a one-byte-per-call source keeps calling
until the buffer is full: it makes one call per missing byte. -/
theorem ReadAtLeastLoop_counting_oneByte (n : Nat) :
    ∀ (fuel : Nat) (acc b : List Byte) (c : Nat),
      acc.length ≤ n → n - acc.length ≤ b.length → n - acc.length ≤ fuel →
      ReadAtLeastLoop n n fuel (CountingReader.mk (OneByteReader.mk (Buffer.mk b)) c) acc none =
        Exec.ret (acc ++ b.take (n - acc.length), none,
          ⟨⟨⟨b.drop (n - acc.length)⟩⟩, c + (n - acc.length)⟩) := by
  intro fuel
  induction fuel with
  | zero =>
      intro acc b c _ _ hf
      have hz : n - acc.length = 0 := by omega
      rw [ReadAtLeastLoop_done _ _ _ _ _ (by omega), hz]
      simp
  | succ f ih =>
      intro acc b c ha hb hf
      by_cases hz : n - acc.length = 0
      · rw [ReadAtLeastLoop_done _ _ _ _ _ (by omega), hz]
        simp
      · have hlt : acc.length < n := by omega
        cases b with
        | nil => simp only [List.length_nil] at hb; omega
        | cons x xs =>
            simp only [List.length_cons] at hb
            have hlen : (acc ++ [x]).length = acc.length + 1 := by simp
            rw [ReadAtLeastLoop]
            simp only [hlt, if_true, Read_counting_oneByte_cons x xs c _ hz]
            rw [ih (acc ++ [x]) xs (c + 1) (by omega) (by omega) (by omega), hlen]
            have hk : n - acc.length = (n - (acc.length + 1)) + 1 := by omega
            rw [hk]
            simp [Nat.add_assoc, Nat.add_comm 1]

/-- `io.ReadFull` of `n` bytes over a one-byte-per-call source that has them:
it succeeds, after exactly `n` calls. -/
theorem ReadFull_counting_oneByte (n fuel : Nat) (b : List Byte) (c : Nat) (hb : n ≤ b.length)
    (hf : n ≤ fuel) :
    ReadFull fuel (CountingReader.mk (OneByteReader.mk (Buffer.mk b)) c) n =
      Exec.ret (b.take n, none, ⟨⟨⟨b.drop n⟩⟩, c + n⟩) := by
  have hl : (b.take n).length = n := by simp [List.length_take, hb]
  simp only [ReadFull, ReadAtLeast, lt_irrefl, if_false]
  rw [ReadAtLeastLoop_counting_oneByte n fuel [] b c (by simp) (by simpa using hb)
    (by simpa using hf)]
  simp [hl]

theorem readScalar_counting_oneByte {α : Type} (zero : α) (size : Nat) (decode : List Byte → α)
    (e : ByteOrder) (b : List Byte) (c fuel : Nat) (hb : size ≤ b.length) (hf : size ≤ fuel) :
    readScalar zero size decode fuel
        (BinaryReader.mk (CountingReader.mk (OneByteReader.mk (Buffer.mk b)) c) e) =
      Exec.ret (decode (b.take size), none, ⟨⟨⟨⟨b.drop size⟩⟩, c + size⟩, e⟩) := by
  simp [readScalar, binaryRead, ReadFull_counting_oneByte size fuel b c hb hf]

theorem readArray_counting_oneByte {α : Type} (m : Machine) (zero : α) (size : Nat)
    (decode : List Byte → α) (e : ByteOrder) (b : List Byte) (c fuel k : Nat)
    (hm : size * k ≤ m.maxAlloc) (hb : size * k ≤ b.length) (hf : size * k ≤ fuel) :
    readArray m zero size decode fuel
        (BinaryReader.mk (CountingReader.mk (OneByteReader.mk (Buffer.mk b)) c) e) (k : Int) =
      Exec.ret ((List.range k).map (fun i => decode ((b.take (size * k)).drop (size * i))), none,
        ⟨⟨⟨⟨b.drop (size * k)⟩⟩, c + size * k⟩, e⟩) := by
  simp [readArray, binaryRead, ReadFull_counting_oneByte (size * k) fuel b c hb hf,
    Nat.not_lt.mpr hm]

/-- A scalar read whose first `Read` call reports an error with too few bytes:
the error comes back as reported, except that `io.EOF` after some bytes becomes
`io.ErrUnexpectedEOF`. -/
theorem readScalar_first_read_error {σ α : Type} [Reader σ] (zero : α) (size : Nat)
    (decode : List Byte → α) (fuel : Nat) (reader : BinaryReader σ) (err : Error)
    (herr : (Reader.Read reader.raw size).err = some err)
    (hlen : (Reader.Read reader.raw size).data.length < size) :
    readScalar zero size decode (fuel + 1) reader =
      Exec.ret (zero,
        some (if 0 < (Reader.Read reader.raw size).data.length ∧ err = Error.EOF
          then Error.ErrUnexpectedEOF else err),
        ⟨(Reader.Read reader.raw size).next, reader.endian⟩) := by
  have hpos : 0 < size := by omega
  have hge : ¬ size ≤ (Reader.Read reader.raw size).data.length := by omega
  simp only [readScalar, binaryRead, ReadFull, ReadAtLeast, lt_irrefl, if_false,
    ReadAtLeastLoop, List.length_nil, hpos, if_true, Nat.sub_zero, List.nil_append, herr,
    ReadAtLeastLoop_err, ge_iff_le, hge, gt_iff_lt, Option.some.injEq]
  split_ifs <;> rfl

/-- `io.ReadFull` on a non-empty buffer holding fewer bytes than asked: the
first `Read` drains the buffer, the second reports `io.EOF`, which comes back
as `io.ErrUnexpectedEOF`. -/
theorem ReadFull_Buffer_short (b : List Byte) (size fuel : Nat) (hb : b ≠ [])
    (h : b.length < size) :
    ReadFull (fuel + 2) (Buffer.mk b) size =
      Exec.ret (b, some Error.ErrUnexpectedEOF, ⟨[]⟩) := by
  have hpos : 0 < size := by omega
  have hge : ¬ size ≤ b.length := by omega
  have hbl : 0 < b.length := List.length_pos.mpr hb
  simp only [ReadFull, ReadAtLeast, lt_irrefl, if_false, ReadAtLeastLoop, List.length_nil,
    hpos, if_true, Nat.sub_zero, List.nil_append, Buffer_Read_short b size hb (le_of_lt h), h,
    Buffer_Read_nil (size - b.length) (by omega), ReadAtLeastLoop_err, List.append_nil,
    ge_iff_le, hge, gt_iff_lt, hbl, true_and]

/-- A scalar read on a buffer holding fewer bytes than the value needs. -/
theorem readScalar_Buffer_short {α : Type} (zero : α) (size : Nat) (decode : List Byte → α)
    (e : ByteOrder) (b : List Byte) (fuel : Nat) (h : b.length < size) :
    readScalar zero size decode (fuel + 2) (BinaryReader.mk (Buffer.mk b) e) =
      Exec.ret (zero, some (if b = [] then Error.EOF else Error.ErrUnexpectedEOF),
        ⟨⟨[]⟩, e⟩) := by
  by_cases hb : b = []
  · subst hb
    have hr := Buffer_Read_nil size (by simpa using h)
    rw [readScalar_first_read_error zero size decode (fuel + 1) _ Error.EOF
      (by simp [hr]) (by simpa [hr] using h)]
    simp [hr]
  · simp [readScalar, binaryRead, ReadFull_Buffer_short b size fuel hb h, hb]

/-- `ReadBytes` when the source's read call hands over fewer bytes than asked
and reports no error. -/
theorem ReadBytes_of_short_read {σ : Type} [Reader σ] (m : Machine)
    (reader : BinaryReader σ) (N : Int) (hm : N ≤ m.maxAlloc)
    (herr : (Reader.Read reader.raw N.toNat).err = none)
    (h : ((Reader.Read reader.raw N.toNat).data.length : Int) < N) :
    reader.ReadBytes m N =
      Exec.ret (none, some Error.ErrShortRead,
        ⟨(Reader.Read reader.raw N.toNat).next, reader.endian⟩) := by
  have h0 : ¬ (N < 0 ∨ (m.maxAlloc : Int) < N) := by omega
  have hne : ((Reader.Read reader.raw N.toNat).data.length : Int) ≠ N := by omega
  unfold BinaryReader.ReadBytes
  rw [if_neg h0]
  simp [herr, hne]

/-- `ReadByte` on an exhausted buffer. -/
theorem ReadByte_Buffer_nil (e : ByteOrder) :
    (BinaryReader.mk (Buffer.mk []) e).ReadByte = (0, some Error.EOF, ⟨⟨[]⟩, e⟩) := by
  simp [BinaryReader.ReadByte, Buffer_Read_nil 1 (by decide)]

/-- `io.ReadFull` into an empty buffer makes no `Read` call, whatever the source. -/
theorem ReadFull_zero {σ : Type} [Reader σ] (fuel : Nat) (r : σ) :
    ReadFull fuel r 0 = Exec.ret ([], none, r) := by
  simp [ReadFull, ReadAtLeast, ReadAtLeastLoop_done]

/-- An array read of no elements returns the empty sequence and leaves the
source untouched, whatever the source and the fuel. -/
theorem readArray_zero {σ α : Type} [Reader σ] (m : Machine) (zero : α) (size : Nat)
    (decode : List Byte → α) (fuel : Nat) (reader : BinaryReader σ) :
    readArray m zero size decode fuel reader 0 = Exec.ret ([], none, reader) := by
  simp [readArray, binaryRead, ReadFull_zero]

theorem Uint64_BigEndian_eq (b : List Byte) :
    ByteOrder.BigEndian.Uint64 b =
      byteAt b 0 * 2 ^ 56 + byteAt b 1 * 2 ^ 48 + byteAt b 2 * 2 ^ 40 + byteAt b 3 * 2 ^ 32 +
        byteAt b 4 * 2 ^ 24 + byteAt b 5 * 2 ^ 16 + byteAt b 6 * 2 ^ 8 + byteAt b 7 := by
  have h0 := byteAt_lt b 0
  have h1 := byteAt_lt b 1
  have h2 := byteAt_lt b 2
  have h3 := byteAt_lt b 3
  have h4 := byteAt_lt b 4
  have h5 := byteAt_lt b 5
  have h6 := byteAt_lt b 6
  have h7 := byteAt_lt b 7
  simp only [ByteOrder.Uint64]
  rw [lor_shiftLeft_eq_add _ _ 8 (by omega), lor_shiftLeft_eq_add _ _ 16 (by omega),
    lor_shiftLeft_eq_add _ _ 24 (by omega), lor_shiftLeft_eq_add _ _ 32 (by omega),
    lor_shiftLeft_eq_add _ _ 40 (by omega), lor_shiftLeft_eq_add _ _ 48 (by omega),
    lor_shiftLeft_eq_add _ _ 56 (by omega)]
  omega

theorem Uint64_LittleEndian_eq (b : List Byte) :
    ByteOrder.LittleEndian.Uint64 b =
      byteAt b 0 + byteAt b 1 * 2 ^ 8 + byteAt b 2 * 2 ^ 16 + byteAt b 3 * 2 ^ 24 +
        byteAt b 4 * 2 ^ 32 + byteAt b 5 * 2 ^ 40 + byteAt b 6 * 2 ^ 48 + byteAt b 7 * 2 ^ 56 := by
  have h0 := byteAt_lt b 0
  have h1 := byteAt_lt b 1
  have h2 := byteAt_lt b 2
  have h3 := byteAt_lt b 3
  have h4 := byteAt_lt b 4
  have h5 := byteAt_lt b 5
  have h6 := byteAt_lt b 6
  have h7 := byteAt_lt b 7
  simp only [ByteOrder.Uint64]
  rw [lor_shiftLeft_eq_add _ _ 8 (by omega), lor_shiftLeft_eq_add _ _ 16 (by omega),
    lor_shiftLeft_eq_add _ _ 24 (by omega), lor_shiftLeft_eq_add _ _ 32 (by omega),
    lor_shiftLeft_eq_add _ _ 40 (by omega), lor_shiftLeft_eq_add _ _ 48 (by omega),
    lor_shiftLeft_eq_add _ _ 56 (by omega)]

/-- `Uint16` looks at the first two bytes only. -/
theorem Uint16_local (e : ByteOrder) (l l2 : List Byte)
    (h : ∀ j, j < 2 → byteAt l j = byteAt l2 j) : e.Uint16 l = e.Uint16 l2 := by
  cases e <;> simp only [ByteOrder.Uint16, h 0 (by omega), h 1 (by omega)]

/-- `Uint32` looks at the first four bytes only. -/
theorem Uint32_local (e : ByteOrder) (l l2 : List Byte)
    (h : ∀ j, j < 4 → byteAt l j = byteAt l2 j) : e.Uint32 l = e.Uint32 l2 := by
  cases e <;>
    simp only [ByteOrder.Uint32, h 0 (by omega), h 1 (by omega), h 2 (by omega), h 3 (by omega)]

/-- `Uint64` looks at the first eight bytes only. -/
theorem Uint64_local (e : ByteOrder) (l l2 : List Byte)
    (h : ∀ j, j < 8 → byteAt l j = byteAt l2 j) : e.Uint64 l = e.Uint64 l2 := by
  cases e <;>
    simp only [ByteOrder.Uint64, h 0 (by omega), h 1 (by omega), h 2 (by omega), h 3 (by omega),
      h 4 (by omega), h 5 (by omega), h 6 (by omega), h 7 (by omega)]

/-- Element `i < k` of width `w` is the same bytes whether cut out of the first
`w * k` bytes or out of `b` directly. -/
theorem byteAt_element (b : List Byte) (w k i j : Nat) (hi : i < k) (hj : j < w) :
    byteAt ((b.take (w * k)).drop (w * i)) j = byteAt ((b.drop (w * i)).take w) j := by
  have hlt : w * i + j < w * k := by
    calc w * i + j < w * i + w := by omega
      _ = w * (i + 1) := by rw [Nat.mul_succ]
      _ ≤ w * k := Nat.mul_le_mul_left w hi
  rw [byteAt_drop, byteAt_take _ _ _ hlt, byteAt_take _ _ _ hj, byteAt_drop]

/-- An array read of `k` elements of width `size` on a buffer that holds them:
element `i` is the decode of `b[size*i .. size*(i+1))`, and `b[size*k:]` stays unread. -/
theorem readArray_Buffer_of_le {α : Type} (zero : α) (size : Nat) (decode : List Byte → α)
    (hloc : ∀ l l2 : List Byte, (∀ j, j < size → byteAt l j = byteAt l2 j) →
      decode l = decode l2)
    (m : Machine) (e : ByteOrder) (b : List Byte) (k fuel : Nat)
    (hm : size * k ≤ m.maxAlloc) (h : size * k ≤ b.length) :
    readArray m zero size decode (fuel + 1) (BinaryReader.mk (Buffer.mk b) e)
        (k : Int) =
      Exec.ret ((List.range k).map (fun i => decode ((b.drop (size * i)).take size)), none,
        ⟨⟨b.drop (size * k)⟩, e⟩) := by
  have hmap : (List.range k).map (fun i => decode ((b.take (size * k)).drop (size * i))) =
      (List.range k).map (fun i => decode ((b.drop (size * i)).take size)) := by
    apply List.map_congr_left
    intro i hi
    exact hloc _ _ (fun j hj => byteAt_element b size k i j (List.mem_range.mp hi) hj)
  simp [readArray, binaryRead_Buffer_of_le b (size * k) fuel h, hmap, Nat.not_lt.mpr hm]

/-- What `k` successive scalar reads of width `size` give on a buffer that holds
`size * k` bytes, for any `read` that behaves as a scalar read does on a buffer
holding at least `size` bytes. -/
theorem successiveReads_Buffer_of_le {α : Type} (size : Nat) (decode : List Byte → α)
    (e : ByteOrder) (read : BinaryReader Buffer → Exec (α × Option Error × BinaryReader Buffer))
    (hread : ∀ b : List Byte, size ≤ b.length →
      read (BinaryReader.mk (Buffer.mk b) e) =
        Exec.ret (decode (b.take size), none, ⟨⟨b.drop size⟩, e⟩)) :
    ∀ (k : Nat) (b : List Byte), size * k ≤ b.length →
      successiveReads read k (BinaryReader.mk (Buffer.mk b) e) =
        Exec.ret ((List.range k).map (fun i => decode ((b.drop (size * i)).take size)), none,
          ⟨⟨b.drop (size * k)⟩, e⟩) := by
  intro k
  induction k with
  | zero =>
      intro b _
      simp [successiveReads]
  | succ k ih =>
      intro b h
      have hs : size ≤ b.length := by
        have : size * (k + 1) = size * k + size := Nat.mul_succ size k
        omega
      have hk : size * k ≤ (b.drop size).length := by
        have : size * (k + 1) = size * k + size := Nat.mul_succ size k
        simp only [List.length_drop]
        omega
      have hmap : (List.range k).map (fun i => decode ((b.drop (size + size * i)).take size))
          = (List.range k).map ((fun i => decode ((b.drop (size * i)).take size)) ∘ Nat.succ) := by
        apply List.map_congr_left
        intro i _
        simp only [Function.comp, Nat.succ_eq_add_one, Nat.mul_succ]
        rw [Nat.add_comm]
      rw [successiveReads, hread b hs]
      simp only [ih (b.drop size) hk, List.drop_drop, List.range_succ_eq_map,
        List.map_cons, List.map_map, Nat.mul_zero, List.drop_zero, Nat.mul_succ]
      rw [hmap, Nat.add_comm size (size * k)]

/-- `Skip` on a buffer holding at least `N` bytes. -/
theorem Skip_Buffer_of_le (m : Machine) (e : ByteOrder) (b : List Byte) (N : Int)
    (h0 : 0 ≤ N) (h : N ≤ b.length) (hm : N ≤ m.maxAlloc) :
    (BinaryReader.mk (Buffer.mk b) e).Skip m N =
      Exec.ret (none, ⟨⟨b.drop N.toNat⟩, e⟩) := by
  have hn : N.toNat ≤ b.length := by omega
  have hlen : (((b.take N.toNat).length : Nat) : Int) = N := by
    rw [List.length_take, Nat.min_eq_left hn]
    omega
  have hmk : ¬ (N < 0 ∨ (m.maxAlloc : Int) < N) := by omega
  unfold BinaryReader.Skip
  rw [if_neg hmk]
  simp only [Buffer_Read_of_le b N.toNat hn]
  rw [if_neg (not_not.mpr hlen)]

/-- `Skip` returns the error, and leaves the source in the state, that
`ReadBytes` with the same count does. -/
theorem Skip_eq_ReadBytes {σ : Type} [Reader σ] (m : Machine) (reader : BinaryReader σ)
    (N : Int) :
    reader.Skip m N =
      match reader.ReadBytes m N with
      | Exec.ret (_, err, r) => Exec.ret (err, r)
      | Exec.panic => Exec.panic
      | Exec.timeout => Exec.timeout := by
  unfold BinaryReader.Skip BinaryReader.ReadBytes
  by_cases h0 : N < 0 ∨ (m.maxAlloc : Int) < N
  · simp [h0]
  · simp only [h0, if_false]
    cases herr : (Reader.Read reader.raw N.toNat).err with
    | some e => simp
    | none =>
        by_cases hn : ((Reader.Read reader.raw N.toNat).data.length : Int) = N
        · simp [hn]
        · simp [hn]

/-- `ReadByte` on a non-empty buffer returns its first byte and advances by one. -/
theorem ReadByte_Buffer_cons (e : ByteOrder) (x : Byte) (xs : List Byte) :
    (BinaryReader.mk (Buffer.mk (x :: xs)) e).ReadByte = (x, none, ⟨⟨xs⟩, e⟩) := by
  simp [BinaryReader.ReadByte, Reader.Read, Buffer.Read]

/-- `ReadBytes` on a non-empty buffer holding fewer bytes than asked. -/
theorem ReadBytes_Buffer_short (m : Machine) (e : ByteOrder) (b : List Byte) (N : Int)
    (hm : N ≤ m.maxAlloc) (hb : b ≠ []) (h : (b.length : Int) < N) :
    (BinaryReader.mk (Buffer.mk b) e).ReadBytes m N =
      Exec.ret (none, some Error.ErrShortRead, ⟨⟨[]⟩, e⟩) := by
  have hle : b.length ≤ N.toNat := by omega
  have hr := Buffer_Read_short b N.toNat hb hle
  rw [ReadBytes_of_short_read m _ _ hm (by simp [hr]) (by simp only [hr]; omega)]
  simp [hr]

/-- When the source's read call reports an error, `ReadByte` returns it. -/
theorem ReadByte_of_read_error {σ : Type} [Reader σ] (reader : BinaryReader σ) (err : Error)
    (h : (Reader.Read reader.raw 1).err = some err) :
    reader.ReadByte = (0, some err, ⟨(Reader.Read reader.raw 1).next, reader.endian⟩) := by
  simp [BinaryReader.ReadByte, h]

/-- When the source's read call reports an error, `ReadBytes` returns it. -/
theorem ReadBytes_of_read_error {σ : Type} [Reader σ] (m : Machine)
    (reader : BinaryReader σ) (N : Int) (err : Error) (h0 : 0 ≤ N) (hm : N ≤ m.maxAlloc)
    (h : (Reader.Read reader.raw N.toNat).err = some err) :
    reader.ReadBytes m N =
      Exec.ret (none, some err, ⟨(Reader.Read reader.raw N.toNat).next, reader.endian⟩) := by
  have hmk : ¬ (N < 0 ∨ (m.maxAlloc : Int) < N) := by omega
  unfold BinaryReader.ReadBytes
  rw [if_neg hmk]
  simp [h]

/-- When the source's read call reports an error, `Skip` returns it. -/
theorem Skip_of_read_error {σ : Type} [Reader σ] (m : Machine) (reader : BinaryReader σ)
    (N : Int) (err : Error) (h0 : 0 ≤ N) (hm : N ≤ m.maxAlloc)
    (h : (Reader.Read reader.raw N.toNat).err = some err) :
    reader.Skip m N =
      Exec.ret (some err, ⟨(Reader.Read reader.raw N.toNat).next, reader.endian⟩) := by
  have hmk : ¬ (N < 0 ∨ (m.maxAlloc : Int) < N) := by omega
  unfold BinaryReader.Skip
  rw [if_neg hmk]
  simp [h]

/-- `ReadBytes` with a count `make` does not serve panics, whatever the source. -/
theorem ReadBytes_panics {σ : Type} [Reader σ] (m : Machine) (reader : BinaryReader σ)
    (N : Int) (h : N < 0 ∨ (m.maxAlloc : Int) < N) :
    reader.ReadBytes m N = Exec.panic := by
  unfold BinaryReader.ReadBytes
  rw [if_pos h]

/-- `Skip` with a count `make` does not serve panics, whatever the source. -/
theorem Skip_panics {σ : Type} [Reader σ] (m : Machine) (reader : BinaryReader σ)
    (N : Int) (h : N < 0 ∨ (m.maxAlloc : Int) < N) :
    reader.Skip m N = Exec.panic := by
  unfold BinaryReader.Skip
  rw [if_pos h]

theorem Uint16_lt (e : ByteOrder) (b : List Byte) : e.Uint16 b < 2 ^ 16 := by
  have h0 := byteAt_lt b 0
  have h1 := byteAt_lt b 1
  cases e
  · rw [Uint16_BigEndian_eq]; omega
  · rw [Uint16_LittleEndian_eq]; omega

theorem Uint32_lt (e : ByteOrder) (b : List Byte) : e.Uint32 b < 2 ^ 32 := by
  have h0 := byteAt_lt b 0
  have h1 := byteAt_lt b 1
  have h2 := byteAt_lt b 2
  have h3 := byteAt_lt b 3
  cases e
  · rw [Uint32_BigEndian_eq]; omega
  · rw [Uint32_LittleEndian_eq]; omega

theorem Uint64_lt (e : ByteOrder) (b : List Byte) : e.Uint64 b < 2 ^ 64 := by
  have h0 := byteAt_lt b 0
  have h1 := byteAt_lt b 1
  have h2 := byteAt_lt b 2
  have h3 := byteAt_lt b 3
  have h4 := byteAt_lt b 4
  have h5 := byteAt_lt b 5
  have h6 := byteAt_lt b 6
  have h7 := byteAt_lt b 7
  cases e
  · rw [Uint64_BigEndian_eq]; omega
  · rw [Uint64_LittleEndian_eq]; omega

/-- On a value that fits its width, `toSigned` keeps the lower half and moves
the upper half down by `2 ^ bits`. -/
theorem toSigned_of_lt (bits u : Nat) (h : u < 2 ^ bits) :
    toSigned bits u = if u < 2 ^ (bits - 1) then (u : Int) else (u : Int) - 2 ^ bits := by
  unfold toSigned
  rw [Nat.mod_eq_of_lt h]

theorem byteAt_reverse (b : List Byte) (i : Nat) (h : i < b.length) :
    byteAt b.reverse i = byteAt b (b.length - 1 - i) := by
  simp [byteAt, List.getD_eq_getElem?_getD, List.getElem?_reverse h]

/-- Little-endian decoding of two bytes is big-endian decoding of their reversal. -/
theorem Uint16_LittleEndian_reverse (b : List Byte) (h : b.length = 2) :
    ByteOrder.LittleEndian.Uint16 b = ByteOrder.BigEndian.Uint16 b.reverse := by
  rw [Uint16_LittleEndian_eq, Uint16_BigEndian_eq, byteAt_reverse b 0 (by omega),
    byteAt_reverse b 1 (by omega), h]

/-- Little-endian decoding of four bytes is big-endian decoding of their reversal. -/
theorem Uint32_LittleEndian_reverse (b : List Byte) (h : b.length = 4) :
    ByteOrder.LittleEndian.Uint32 b = ByteOrder.BigEndian.Uint32 b.reverse := by
  rw [Uint32_LittleEndian_eq, Uint32_BigEndian_eq, byteAt_reverse b 0 (by omega),
    byteAt_reverse b 1 (by omega), byteAt_reverse b 2 (by omega),
    byteAt_reverse b 3 (by omega), h]
  simp only [Nat.add_one_sub_one, Nat.sub_self, Nat.reduceSub]
  omega

/-- Little-endian decoding of eight bytes is big-endian decoding of their reversal. -/
theorem Uint64_LittleEndian_reverse (b : List Byte) (h : b.length = 8) :
    ByteOrder.LittleEndian.Uint64 b = ByteOrder.BigEndian.Uint64 b.reverse := by
  rw [Uint64_LittleEndian_eq, Uint64_BigEndian_eq, byteAt_reverse b 0 (by omega),
    byteAt_reverse b 1 (by omega), byteAt_reverse b 2 (by omega),
    byteAt_reverse b 3 (by omega), byteAt_reverse b 4 (by omega),
    byteAt_reverse b 5 (by omega), byteAt_reverse b 6 (by omega),
    byteAt_reverse b 7 (by omega), h]
  simp only [Nat.add_one_sub_one, Nat.sub_self, Nat.reduceSub]
  omega

/-! ## Claims -/

/-- C1: over a byte sequence `b` of length at least 2, `ReadUint16` on a fresh
big-endian buffer reader returns `b[0]*256 + b[1]` with a nil error, and on a
fresh little-endian buffer reader returns `b[1]*256 + b[0]` with a nil error
(in both cases leaving `b[2:]` unread), whatever fuel above zero is given. -/
theorem ReadUint16_fresh_buffer (b : List Byte) (h : 2 ≤ b.length) (fuel : Nat) :
    (BigEndianBufferReader b).toBinaryReader.ReadUint16 (fuel + 1) =
        Exec.ret (b[0].val * 256 + b[1].val, none, ⟨⟨b.drop 2⟩, ByteOrder.BigEndian⟩) ∧
    (LittleEndianBufferReader b).toBinaryReader.ReadUint16 (fuel + 1) =
        Exec.ret (b[1].val * 256 + b[0].val, none, ⟨⟨b.drop 2⟩, ByteOrder.LittleEndian⟩) := by
  have h0 : byteAt b 0 = b[0].val := byteAt_eq_getElem b 0 (by omega)
  have h1 : byteAt b 1 = b[1].val := byteAt_eq_getElem b 1 (by omega)
  constructor
  · simp only [BigEndianBufferReader, NewBuffer]
    rw [ReadUint16_Buffer_BigEndian b h, h0, h1]
  · simp only [LittleEndianBufferReader, NewBuffer]
    rw [ReadUint16_Buffer_LittleEndian b h, h0, h1]

/-- C1 at `[0x12, 0x34, 0x56]`: big-endian gives 0x1234, little-endian 0x3412. -/
theorem ReadUint16_fresh_buffer_witness :
    2 ≤ [(0x12 : Byte), 0x34, 0x56].length ∧
    (BigEndianBufferReader [0x12, 0x34, 0x56]).toBinaryReader.ReadUint16 1 =
        Exec.ret (0x1234, none, ⟨⟨[0x56]⟩, ByteOrder.BigEndian⟩) ∧
    (LittleEndianBufferReader [0x12, 0x34, 0x56]).toBinaryReader.ReadUint16 1 =
        Exec.ret (0x3412, none, ⟨⟨[0x56]⟩, ByteOrder.LittleEndian⟩) :=
  ⟨by decide,
    (ReadUint16_fresh_buffer [0x12, 0x34, 0x56] (by decide) 0).1.trans (by decide),
    (ReadUint16_fresh_buffer [0x12, 0x34, 0x56] (by decide) 0).2.trans (by decide)⟩

/-- C2: over a byte sequence `b` of length at least 4, two `ReadUint16` calls in
a row on one buffer reader both succeed; the first decodes `b[0..2)` and leaves
`b[2:]` unread, the second (run on the reader the first left behind) decodes
`b[2..4)` and leaves `b[4:]` unread, in the reader's byte order. -/
theorem ReadUint16_twice_buffer (b : List Byte) (h : 4 ≤ b.length) (fuel : Nat) :
    ((BigEndianBufferReader b).toBinaryReader.ReadUint16 (fuel + 1) =
        Exec.ret (b[0].val * 256 + b[1].val, none, ⟨⟨b.drop 2⟩, ByteOrder.BigEndian⟩) ∧
      (BinaryReader.mk (Buffer.mk (b.drop 2)) ByteOrder.BigEndian).ReadUint16 (fuel + 1) =
        Exec.ret (b[2].val * 256 + b[3].val, none, ⟨⟨b.drop 4⟩, ByteOrder.BigEndian⟩)) ∧
    ((LittleEndianBufferReader b).toBinaryReader.ReadUint16 (fuel + 1) =
        Exec.ret (b[1].val * 256 + b[0].val, none, ⟨⟨b.drop 2⟩, ByteOrder.LittleEndian⟩) ∧
      (BinaryReader.mk (Buffer.mk (b.drop 2)) ByteOrder.LittleEndian).ReadUint16 (fuel + 1) =
        Exec.ret (b[3].val * 256 + b[2].val, none, ⟨⟨b.drop 4⟩, ByteOrder.LittleEndian⟩)) := by
  have h0 : byteAt b 0 = b[0].val := byteAt_eq_getElem b 0 (by omega)
  have h1 : byteAt b 1 = b[1].val := byteAt_eq_getElem b 1 (by omega)
  have h2 : byteAt b 2 = b[2].val := byteAt_eq_getElem b 2 (by omega)
  have h3 : byteAt b 3 = b[3].val := byteAt_eq_getElem b 3 (by omega)
  have hd : 2 ≤ (b.drop 2).length := by simp only [List.length_drop]; omega
  have hdd : (b.drop 2).drop 2 = b.drop 4 := by simp [List.drop_drop]
  refine ⟨⟨?_, ?_⟩, ⟨?_, ?_⟩⟩
  · simp only [BigEndianBufferReader, NewBuffer]
    rw [ReadUint16_Buffer_BigEndian b (by omega), h0, h1]
  · rw [ReadUint16_Buffer_BigEndian _ hd, byteAt_drop, byteAt_drop, hdd, h2, h3]
  · simp only [LittleEndianBufferReader, NewBuffer]
    rw [ReadUint16_Buffer_LittleEndian b (by omega), h0, h1]
  · rw [ReadUint16_Buffer_LittleEndian _ hd, byteAt_drop, byteAt_drop, hdd, h2, h3]

/-- C2 at `[0x00, 0x01, 0x00, 0x02]`: the big-endian reader yields 1 then 2, the
little-endian reader 256 then 512. -/
theorem ReadUint16_twice_buffer_witness :
    4 ≤ [(0x00 : Byte), 0x01, 0x00, 0x02].length ∧
    ((BigEndianBufferReader [0x00, 0x01, 0x00, 0x02]).toBinaryReader.ReadUint16 1 =
        Exec.ret (1, none, ⟨⟨[0x00, 0x02]⟩, ByteOrder.BigEndian⟩) ∧
      (BinaryReader.mk (Buffer.mk [0x00, 0x02]) ByteOrder.BigEndian).ReadUint16 1 =
        Exec.ret (2, none, ⟨⟨[]⟩, ByteOrder.BigEndian⟩)) ∧
    ((LittleEndianBufferReader [0x00, 0x01, 0x00, 0x02]).toBinaryReader.ReadUint16 1 =
        Exec.ret (256, none, ⟨⟨[0x00, 0x02]⟩, ByteOrder.LittleEndian⟩) ∧
      (BinaryReader.mk (Buffer.mk [0x00, 0x02]) ByteOrder.LittleEndian).ReadUint16 1 =
        Exec.ret (512, none, ⟨⟨[]⟩, ByteOrder.LittleEndian⟩)) :=
  ⟨by decide,
    ⟨(ReadUint16_twice_buffer [0x00, 0x01, 0x00, 0x02] (by decide) 0).1.1.trans (by decide),
      (ReadUint16_twice_buffer [0x00, 0x01, 0x00, 0x02] (by decide) 0).1.2.trans (by decide)⟩,
    ⟨(ReadUint16_twice_buffer [0x00, 0x01, 0x00, 0x02] (by decide) 0).2.1.trans (by decide),
      (ReadUint16_twice_buffer [0x00, 0x01, 0x00, 0x02] (by decide) 0).2.2.trans (by decide)⟩⟩

/-- C3: for every int32 value `v` and each byte order, `ReadInt32` on a buffer
reader of that order over the four bytes `PutUint32` writes for `uint32(v)` in
that order returns `v` with a nil error (and has consumed the four bytes). -/
theorem ReadInt32_roundtrip (v : Int) (hlo : -2147483648 ≤ v) (hhi : v ≤ 2147483647)
    (fuel : Nat) :
    (BigEndianBufferReader (ByteOrder.BigEndian.PutUint32 (toUint32 v))).toBinaryReader.ReadInt32
        (fuel + 1) = Exec.ret (v, none, ⟨⟨[]⟩, ByteOrder.BigEndian⟩) ∧
    (LittleEndianBufferReader
        (ByteOrder.LittleEndian.PutUint32 (toUint32 v))).toBinaryReader.ReadInt32
        (fuel + 1) = Exec.ret (v, none, ⟨⟨[]⟩, ByteOrder.LittleEndian⟩) := by
  have key : ∀ e : ByteOrder,
      (BinaryReader.mk (Buffer.mk (e.PutUint32 (toUint32 v))) e).ReadInt32 (fuel + 1) =
        Exec.ret (v, none, ⟨⟨[]⟩, e⟩) := by
    intro e
    have hl := length_PutUint32 e (toUint32 v)
    simp only [BinaryReader.ReadInt32]
    rw [readScalar_Buffer_of_le _ _ _ _ _ _ (le_of_eq hl.symm),
      List.take_of_length_le (le_of_eq hl), List.drop_of_length_le (le_of_eq hl),
      Uint32_PutUint32 e _ (toUint32_lt v), toSigned_toUint32 v hlo hhi]
  exact ⟨key ByteOrder.BigEndian, key ByteOrder.LittleEndian⟩

/-- C3 at the minimum int32, in both byte orders. -/
theorem ReadInt32_roundtrip_witness :
    ((-2147483648 : Int) ≤ -2147483648 ∧ (-2147483648 : Int) ≤ 2147483647) ∧
    (BigEndianBufferReader [0x80, 0x00, 0x00, 0x00]).toBinaryReader.ReadInt32 1 =
        Exec.ret (-2147483648, none, ⟨⟨[]⟩, ByteOrder.BigEndian⟩) ∧
    (LittleEndianBufferReader [0x00, 0x00, 0x00, 0x80]).toBinaryReader.ReadInt32 1 =
        Exec.ret (-2147483648, none, ⟨⟨[]⟩, ByteOrder.LittleEndian⟩) :=
  ⟨by decide, by
    have h := ReadInt32_roundtrip (-2147483648) (by decide) (by decide) 0
    rw [show ByteOrder.BigEndian.PutUint32 (toUint32 (-2147483648)) = [0x80, 0x00, 0x00, 0x00]
        from by decide,
      show ByteOrder.LittleEndian.PutUint32 (toUint32 (-2147483648)) = [0x00, 0x00, 0x00, 0x80]
        from by decide] at h
    exact h⟩

/-- C4: for `0 ≤ N ≤ len(b)`, `ReadBytes(N)` on a buffer reader over `b` (of
either byte order) returns exactly the first `N` bytes of `b` with a nil error,
and the unread remainder of the buffer is exactly `b[N:]`.  Here `b` is a slice
that exists, so its length is within the limit `m.maxAlloc` of `make`. -/
theorem ReadBytes_buffer_exact (m : Machine) (b : List Byte) (hb : b.length ≤ m.maxAlloc)
    (N : Int) (h0 : 0 ≤ N) (h : N ≤ b.length) :
    (BigEndianBufferReader b).toBinaryReader.ReadBytes m N =
        Exec.ret (some (b.take N.toNat), none, ⟨⟨b.drop N.toNat⟩, ByteOrder.BigEndian⟩) ∧
    (LittleEndianBufferReader b).toBinaryReader.ReadBytes m N =
        Exec.ret (some (b.take N.toNat), none, ⟨⟨b.drop N.toNat⟩, ByteOrder.LittleEndian⟩) :=
  ⟨ReadBytes_Buffer_of_le m _ b N h0 h (by omega),
    ReadBytes_Buffer_of_le m _ b N h0 h (by omega)⟩

/-- C4 at `N = 2` over `[1, 2, 3]`: the bytes `[1, 2]` come back and `[3]` stays unread. -/
theorem ReadBytes_buffer_exact_witness :
    (([1, 2, 3] : List Byte).length ≤ machine64.maxAlloc ∧ (0 : Int) ≤ 2 ∧
      (2 : Int) ≤ ([1, 2, 3] : List Byte).length) ∧
    (BigEndianBufferReader [1, 2, 3]).toBinaryReader.ReadBytes machine64 2 =
        Exec.ret (some [1, 2], none, ⟨⟨[3]⟩, ByteOrder.BigEndian⟩) ∧
    (LittleEndianBufferReader [1, 2, 3]).toBinaryReader.ReadBytes machine64 2 =
        Exec.ret (some [1, 2], none, ⟨⟨[3]⟩, ByteOrder.LittleEndian⟩) :=
  ⟨by decide,
    ReadBytes_buffer_exact machine64 [1, 2, 3] (by decide) 2 (by decide) (by decide)⟩

/-- C5 (as the code behaves): `Len` never returns a value.  Its body calls `Len`
on the same receiver again, so whatever the fuel and whatever the reader, the
call is still running when the fuel is gone; in particular it does not return
`len(b)` on a reader freshly built over `b`. -/
theorem Len_never_returns (fuel : Nat) (reader : BinaryBufferReader) :
    BinaryBufferReader.Len fuel reader = Exec.timeout := by
  induction fuel with
  | zero => rfl
  | succ n ih => simpa [BinaryBufferReader.Len] using ih

/-- C6 fails as stated: `Skip(1)` on a reader over the empty buffer returns the
buffer's end-of-stream error `io.EOF`, which is not `ErrShortRead`; and
`Skip(1<<62)` on a reader over the three bytes `01 02 03`, on a machine whose
`make` serves at most `2^48` bytes, panics instead of returning an error. -/
theorem Skip_empty_buffer_not_ErrShortRead :
    (BigEndianBufferReader []).toBinaryReader.Skip machine64 1 =
        Exec.ret (some Error.EOF, ⟨⟨[]⟩, ByteOrder.BigEndian⟩) ∧
    Error.EOF ≠ Error.ErrShortRead ∧
    (BigEndianBufferReader [1, 2, 3]).toBinaryReader.Skip machine64 4611686018427387904 =
        Exec.panic := by
  decide

/-- C6 (amended): for a count `N` that `make` serves (`N ≤ m.maxAlloc`), `Skip(N)`
fails whenever the source's read call returns fewer than `N` bytes: with
`ErrShortRead` when that call reported no error, and with the source's own
error when it reported one.  For a buffer reader holding fewer than `N` unread
bytes this is `ErrShortRead` when the buffer is non-empty and the buffer's
end-of-stream error `io.EOF` when it is empty.  For a count above `m.maxAlloc`,
`Skip(N)` panics before any read call. -/
theorem Skip_short_source (m : Machine) (N : Int) :
    (∀ {σ : Type} [Reader σ] (reader : BinaryReader σ), N ≤ m.maxAlloc →
      ((Reader.Read reader.raw N.toNat).data.length : Int) < N →
      reader.Skip m N =
        Exec.ret (some ((Reader.Read reader.raw N.toNat).err.getD Error.ErrShortRead),
          ⟨(Reader.Read reader.raw N.toNat).next, reader.endian⟩)) ∧
    (∀ (e : ByteOrder) (b : List Byte), N ≤ m.maxAlloc → (b.length : Int) < N →
      (BinaryReader.mk (Buffer.mk b) e).Skip m N =
        Exec.ret (some (if b = [] then Error.EOF else Error.ErrShortRead), ⟨⟨[]⟩, e⟩)) ∧
    (∀ {σ : Type} [Reader σ] (reader : BinaryReader σ), (m.maxAlloc : Int) < N →
      reader.Skip m N = Exec.panic) :=
  ⟨fun reader hm h => Skip_of_short_read m reader N hm h,
    fun e b hm h => Skip_Buffer_short m e b N hm h,
    fun reader h => Skip_panics m reader N (Or.inr h)⟩

/-- C6 (amended) at `N = 2` with `make` serving up to `2^48` bytes: a one-byte
buffer gives `ErrShortRead`, an empty buffer gives `io.EOF`. -/
theorem Skip_short_source_witness :
    ((2 : Int) ≤ machine64.maxAlloc ∧ (([7] : List Byte).length : Int) < 2) ∧
    (BigEndianBufferReader [7]).toBinaryReader.Skip machine64 2 =
        Exec.ret (some Error.ErrShortRead, ⟨⟨[]⟩, ByteOrder.BigEndian⟩) ∧
    (BigEndianBufferReader []).toBinaryReader.Skip machine64 2 =
        Exec.ret (some Error.EOF, ⟨⟨[]⟩, ByteOrder.BigEndian⟩) :=
  ⟨by decide,
    ((Skip_short_source machine64 2).1 (BigEndianBufferReader [7]).toBinaryReader (by decide)
      (by decide)).trans (by decide),
    ((Skip_short_source machine64 2).2.1 ByteOrder.BigEndian [] (by decide)
      (by decide)).trans (by decide)⟩

/-- C7 fails as stated: over a source that hands out one byte per `Read` call,
`ReadUint16` on the bytes `01 02` succeeds with 0x0102 after two calls, and
`ReadUint16s(2)` on `01 02 03 04` succeeds with `[0x0102, 0x0304]` after four
calls; neither stops after one call, neither reports an error. -/
theorem integer_reads_one_byte_source_succeed :
    (oneByteCounting [0x01, 0x02] 0 ByteOrder.BigEndian).ReadUint16 2 =
        Exec.ret (0x0102, none, ⟨⟨⟨⟨[]⟩⟩, 2⟩, ByteOrder.BigEndian⟩) ∧
    (oneByteCounting [0x01, 0x02, 0x03, 0x04] 0 ByteOrder.BigEndian).ReadUint16s machine64 4 2 =
        Exec.ret ([0x0102, 0x0304], none, ⟨⟨⟨⟨[]⟩⟩, 4⟩, ByteOrder.BigEndian⟩) := by
  decide

/-- C7 (amended): the scalar and array integer reads keep calling the source
until the bytes they need have arrived.  Over a source that hands out one byte
per `Read` call and holds the bytes `b`, a scalar read of width `w ≤ len(b)`
returns the decode of `b[0..w)` with a nil error after exactly `w` calls, and
an array read of `k` elements of width `w`, `w*k ≤ len(b)`, returns the decodes
of `b[w*i ..]` for `i < k` with a nil error after exactly `w*k` calls (given
fuel for that many calls; the bytes `b` exist, so their number is within the
limit `m.maxAlloc` of `make`). -/
theorem integer_reads_accumulate (m : Machine) (e : ByteOrder) (b : List Byte)
    (c fuel : Nat) :
    (2 ≤ b.length → 2 ≤ fuel →
      (oneByteCounting b c e).ReadUint16 fuel =
          Exec.ret (e.Uint16 (b.take 2), none, oneByteCounting (b.drop 2) (c + 2) e) ∧
      (oneByteCounting b c e).ReadInt16 fuel =
          Exec.ret (toSigned 16 (e.Uint16 (b.take 2)), none,
            oneByteCounting (b.drop 2) (c + 2) e)) ∧
    (4 ≤ b.length → 4 ≤ fuel →
      (oneByteCounting b c e).ReadUint32 fuel =
          Exec.ret (e.Uint32 (b.take 4), none, oneByteCounting (b.drop 4) (c + 4) e) ∧
      (oneByteCounting b c e).ReadInt32 fuel =
          Exec.ret (toSigned 32 (e.Uint32 (b.take 4)), none,
            oneByteCounting (b.drop 4) (c + 4) e)) ∧
    (8 ≤ b.length → 8 ≤ fuel →
      (oneByteCounting b c e).ReadUint64 fuel =
          Exec.ret (e.Uint64 (b.take 8), none, oneByteCounting (b.drop 8) (c + 8) e) ∧
      (oneByteCounting b c e).ReadInt64 fuel =
          Exec.ret (toSigned 64 (e.Uint64 (b.take 8)), none,
            oneByteCounting (b.drop 8) (c + 8) e)) ∧
    (∀ k : Nat, b.length ≤ m.maxAlloc → 2 * k ≤ b.length → 2 * k ≤ fuel →
      (oneByteCounting b c e).ReadUint16s m fuel k =
          Exec.ret ((List.range k).map (fun i => e.Uint16 ((b.take (2 * k)).drop (2 * i))),
            none, oneByteCounting (b.drop (2 * k)) (c + 2 * k) e) ∧
      (oneByteCounting b c e).ReadInt16s m fuel k =
          Exec.ret ((List.range k).map
              (fun i => toSigned 16 (e.Uint16 ((b.take (2 * k)).drop (2 * i)))),
            none, oneByteCounting (b.drop (2 * k)) (c + 2 * k) e)) ∧
    (∀ k : Nat, b.length ≤ m.maxAlloc → 4 * k ≤ b.length → 4 * k ≤ fuel →
      (oneByteCounting b c e).ReadUint32s m fuel k =
          Exec.ret ((List.range k).map (fun i => e.Uint32 ((b.take (4 * k)).drop (4 * i))),
            none, oneByteCounting (b.drop (4 * k)) (c + 4 * k) e) ∧
      (oneByteCounting b c e).ReadInt32s m fuel k =
          Exec.ret ((List.range k).map
              (fun i => toSigned 32 (e.Uint32 ((b.take (4 * k)).drop (4 * i)))),
            none, oneByteCounting (b.drop (4 * k)) (c + 4 * k) e)) ∧
    (∀ k : Nat, b.length ≤ m.maxAlloc → 8 * k ≤ b.length → 8 * k ≤ fuel →
      (oneByteCounting b c e).ReadUint64s m fuel k =
          Exec.ret ((List.range k).map (fun i => e.Uint64 ((b.take (8 * k)).drop (8 * i))),
            none, oneByteCounting (b.drop (8 * k)) (c + 8 * k) e) ∧
      (oneByteCounting b c e).ReadInt64s m fuel k =
          Exec.ret ((List.range k).map
              (fun i => toSigned 64 (e.Uint64 ((b.take (8 * k)).drop (8 * i)))),
            none, oneByteCounting (b.drop (8 * k)) (c + 8 * k) e)) := by
  refine ⟨fun hb hf => ⟨?_, ?_⟩, fun hb hf => ⟨?_, ?_⟩, fun hb hf => ⟨?_, ?_⟩,
    fun k hm hb hf => ⟨?_, ?_⟩, fun k hm hb hf => ⟨?_, ?_⟩, fun k hm hb hf => ⟨?_, ?_⟩⟩
  · exact readScalar_counting_oneByte _ _ _ e b c fuel hb hf
  · exact readScalar_counting_oneByte _ _ _ e b c fuel hb hf
  · exact readScalar_counting_oneByte _ _ _ e b c fuel hb hf
  · exact readScalar_counting_oneByte _ _ _ e b c fuel hb hf
  · exact readScalar_counting_oneByte _ _ _ e b c fuel hb hf
  · exact readScalar_counting_oneByte _ _ _ e b c fuel hb hf
  · exact readArray_counting_oneByte m _ _ _ e b c fuel k (by omega) hb hf
  · exact readArray_counting_oneByte m _ _ _ e b c fuel k (by omega) hb hf
  · exact readArray_counting_oneByte m _ _ _ e b c fuel k (by omega) hb hf
  · exact readArray_counting_oneByte m _ _ _ e b c fuel k (by omega) hb hf
  · exact readArray_counting_oneByte m _ _ _ e b c fuel k (by omega) hb hf
  · exact readArray_counting_oneByte m _ _ _ e b c fuel k (by omega) hb hf

/-- C7 (amended) over the eight bytes `01 .. 08`, little-endian, with fuel 8:
`ReadUint32` gives 0x04030201 after four calls and `ReadUint16s(3)` gives
`[0x0201, 0x0403, 0x0605]` after six calls. -/
theorem integer_reads_accumulate_witness :
    ((4 ≤ [(1 : Byte), 2, 3, 4, 5, 6, 7, 8].length ∧ 4 ≤ 8) ∧
      ([(1 : Byte), 2, 3, 4, 5, 6, 7, 8].length ≤ machine64.maxAlloc ∧
        2 * 3 ≤ [(1 : Byte), 2, 3, 4, 5, 6, 7, 8].length ∧ 2 * 3 ≤ 8)) ∧
    (oneByteCounting [1, 2, 3, 4, 5, 6, 7, 8] 0 ByteOrder.LittleEndian).ReadUint32 8 =
        Exec.ret (0x04030201, none, oneByteCounting [5, 6, 7, 8] 4 ByteOrder.LittleEndian) ∧
    (oneByteCounting [1, 2, 3, 4, 5, 6, 7, 8] 0 ByteOrder.LittleEndian).ReadUint16s machine64 8 3 =
        Exec.ret ([0x0201, 0x0403, 0x0605], none,
          oneByteCounting [7, 8] 6 ByteOrder.LittleEndian) :=
  ⟨by decide,
    ((integer_reads_accumulate machine64 ByteOrder.LittleEndian [1, 2, 3, 4, 5, 6, 7, 8] 0
      8).2.1 (by decide) (by decide)).1.trans (by decide),
    ((integer_reads_accumulate machine64 ByteOrder.LittleEndian [1, 2, 3, 4, 5, 6, 7, 8] 0
      8).2.2.2.1 3 (by decide) (by decide) (by decide)).1.trans (by decide)⟩

/-- C8 fails as stated: over the buffer `01 02 03`, whose read call would hand
over 3 bytes and a nil error when asked for `1<<62`, `ReadBytes(1<<62)` on a
machine whose `make` serves at most `2^48` bytes panics in `make`; it does not
return a nil slice and `ErrShortRead`. -/
theorem ReadBytes_over_limit_panics :
    Reader.Read (Buffer.mk [1, 2, 3]) (4611686018427387904 : Int).toNat =
        ⟨[1, 2, 3], none, ⟨[]⟩⟩ ∧
    (BinaryReader.mk (Buffer.mk [1, 2, 3]) ByteOrder.BigEndian).ReadBytes machine64
        4611686018427387904 = Exec.panic := by
  decide

/-- C8 (amended): for a count `N` that `make` serves (`N ≤ m.maxAlloc`) and every
source whose read call, asked for `N` bytes, returns fewer than `N` bytes and a
nil error, `ReadBytes(N)` returns a nil slice and `ErrShortRead`, and leaves the
source in the state that one read call left it in: no further call is made to
collect the missing bytes.  For a count above `m.maxAlloc`, `ReadBytes(N)` panics
before any read call. -/
theorem ReadBytes_short_read_no_retry {σ : Type} [Reader σ] (m : Machine)
    (reader : BinaryReader σ) (N : Int) :
    (N ≤ m.maxAlloc → (Reader.Read reader.raw N.toNat).err = none →
      ((Reader.Read reader.raw N.toNat).data.length : Int) < N →
      reader.ReadBytes m N =
        Exec.ret (none, some Error.ErrShortRead,
          ⟨(Reader.Read reader.raw N.toNat).next, reader.endian⟩)) ∧
    ((m.maxAlloc : Int) < N → reader.ReadBytes m N = Exec.panic) :=
  ⟨fun hm herr h => ReadBytes_of_short_read m reader N hm herr h,
    fun h => ReadBytes_panics m reader N (Or.inr h)⟩

/-- C8 (amended) over a one-byte-per-call source holding `[1, 2, 3]`:
`ReadBytes(2)` gives a nil slice and `ErrShortRead` after a single call, though
two more bytes were to come. -/
theorem ReadBytes_short_read_no_retry_witness :
    ((2 : Int) ≤ machine64.maxAlloc ∧
      (Reader.Read (oneByteCounting [1, 2, 3] 0 ByteOrder.BigEndian).raw 2).err = none ∧
      ((Reader.Read (oneByteCounting [1, 2, 3] 0 ByteOrder.BigEndian).raw 2).data.length : Int)
        < 2) ∧
    (oneByteCounting [1, 2, 3] 0 ByteOrder.BigEndian).ReadBytes machine64 2 =
      Exec.ret (none, some Error.ErrShortRead, oneByteCounting [2, 3] 1 ByteOrder.BigEndian) :=
  ⟨by decide,
    ((ReadBytes_short_read_no_retry machine64 (oneByteCounting [1, 2, 3] 0 ByteOrder.BigEndian)
      2).1 (by decide) (by decide) (by decide)).trans (by decide)⟩

/-- C9 fails as stated: over a buffer holding the two bytes `01 02`,
`ReadUint32` fails with `io.ErrUnexpectedEOF`, while the buffer's own read calls
reported no error (first call, two bytes) and then `io.EOF` (second call). -/
theorem ReadUint32_short_buffer_not_EOF :
    (BigEndianBufferReader [0x01, 0x02]).toBinaryReader.ReadUint32 2 =
        Exec.ret (0, some Error.ErrUnexpectedEOF, ⟨⟨[]⟩, ByteOrder.BigEndian⟩) ∧
    Reader.Read (NewBuffer [0x01, 0x02]) 4 = ⟨[0x01, 0x02], none, ⟨[]⟩⟩ ∧
    Reader.Read (Buffer.mk []) 2 = ⟨[], some Error.EOF, ⟨[]⟩⟩ ∧
    Error.ErrUnexpectedEOF ≠ Error.EOF := by
  decide

/-- C9 (amended): every scalar read over a buffer holding fewer unread bytes
than its width fails and returns the zero value; the error is the buffer's
`io.EOF`, verbatim, when the buffer is empty, and `io.ErrUnexpectedEOF` when it
holds some bytes.  For any source, when the first read call reports an error
together with fewer bytes than the width, that error is returned verbatim,
except that `io.EOF` after at least one byte becomes `io.ErrUnexpectedEOF`. -/
theorem scalar_read_short_error (fuel : Nat) :
    (∀ (e : ByteOrder) (b : List Byte), b.length < 2 →
      (BinaryReader.mk (Buffer.mk b) e).ReadUint16 (fuel + 2) =
          Exec.ret (0, some (if b = [] then Error.EOF else Error.ErrUnexpectedEOF),
            ⟨⟨[]⟩, e⟩) ∧
      (BinaryReader.mk (Buffer.mk b) e).ReadInt16 (fuel + 2) =
          Exec.ret (0, some (if b = [] then Error.EOF else Error.ErrUnexpectedEOF),
            ⟨⟨[]⟩, e⟩)) ∧
    (∀ (e : ByteOrder) (b : List Byte), b.length < 4 →
      (BinaryReader.mk (Buffer.mk b) e).ReadUint32 (fuel + 2) =
          Exec.ret (0, some (if b = [] then Error.EOF else Error.ErrUnexpectedEOF),
            ⟨⟨[]⟩, e⟩) ∧
      (BinaryReader.mk (Buffer.mk b) e).ReadInt32 (fuel + 2) =
          Exec.ret (0, some (if b = [] then Error.EOF else Error.ErrUnexpectedEOF),
            ⟨⟨[]⟩, e⟩)) ∧
    (∀ (e : ByteOrder) (b : List Byte), b.length < 8 →
      (BinaryReader.mk (Buffer.mk b) e).ReadUint64 (fuel + 2) =
          Exec.ret (0, some (if b = [] then Error.EOF else Error.ErrUnexpectedEOF),
            ⟨⟨[]⟩, e⟩) ∧
      (BinaryReader.mk (Buffer.mk b) e).ReadInt64 (fuel + 2) =
          Exec.ret (0, some (if b = [] then Error.EOF else Error.ErrUnexpectedEOF),
            ⟨⟨[]⟩, e⟩)) ∧
    (∀ {σ : Type} [Reader σ] (reader : BinaryReader σ) (w : Nat) (err : Error),
      (Reader.Read reader.raw w).err = some err →
      (Reader.Read reader.raw w).data.length < w →
      (w = 2 →
        reader.ReadUint16 (fuel + 1) =
            Exec.ret (0,
              some (if 0 < (Reader.Read reader.raw w).data.length ∧ err = Error.EOF
                then Error.ErrUnexpectedEOF else err),
              ⟨(Reader.Read reader.raw w).next, reader.endian⟩) ∧
        reader.ReadInt16 (fuel + 1) =
            Exec.ret (0,
              some (if 0 < (Reader.Read reader.raw w).data.length ∧ err = Error.EOF
                then Error.ErrUnexpectedEOF else err),
              ⟨(Reader.Read reader.raw w).next, reader.endian⟩)) ∧
      (w = 4 →
        reader.ReadUint32 (fuel + 1) =
            Exec.ret (0,
              some (if 0 < (Reader.Read reader.raw w).data.length ∧ err = Error.EOF
                then Error.ErrUnexpectedEOF else err),
              ⟨(Reader.Read reader.raw w).next, reader.endian⟩) ∧
        reader.ReadInt32 (fuel + 1) =
            Exec.ret (0,
              some (if 0 < (Reader.Read reader.raw w).data.length ∧ err = Error.EOF
                then Error.ErrUnexpectedEOF else err),
              ⟨(Reader.Read reader.raw w).next, reader.endian⟩)) ∧
      (w = 8 →
        reader.ReadUint64 (fuel + 1) =
            Exec.ret (0,
              some (if 0 < (Reader.Read reader.raw w).data.length ∧ err = Error.EOF
                then Error.ErrUnexpectedEOF else err),
              ⟨(Reader.Read reader.raw w).next, reader.endian⟩) ∧
        reader.ReadInt64 (fuel + 1) =
            Exec.ret (0,
              some (if 0 < (Reader.Read reader.raw w).data.length ∧ err = Error.EOF
                then Error.ErrUnexpectedEOF else err),
              ⟨(Reader.Read reader.raw w).next, reader.endian⟩))) := by
  refine ⟨fun e b h => ⟨?_, ?_⟩, fun e b h => ⟨?_, ?_⟩, fun e b h => ⟨?_, ?_⟩,
    fun reader w err herr hlen => ⟨fun hw => ?_, fun hw => ?_, fun hw => ?_⟩⟩
  · exact readScalar_Buffer_short _ _ _ e b fuel h
  · exact readScalar_Buffer_short _ _ _ e b fuel h
  · exact readScalar_Buffer_short _ _ _ e b fuel h
  · exact readScalar_Buffer_short _ _ _ e b fuel h
  · exact readScalar_Buffer_short _ _ _ e b fuel h
  · exact readScalar_Buffer_short _ _ _ e b fuel h
  · subst hw
    exact ⟨readScalar_first_read_error _ _ _ fuel reader err herr hlen,
      readScalar_first_read_error _ _ _ fuel reader err herr hlen⟩
  · subst hw
    exact ⟨readScalar_first_read_error _ _ _ fuel reader err herr hlen,
      readScalar_first_read_error _ _ _ fuel reader err herr hlen⟩
  · subst hw
    exact ⟨readScalar_first_read_error _ _ _ fuel reader err herr hlen,
      readScalar_first_read_error _ _ _ fuel reader err herr hlen⟩

/-- C9 (amended) with fuel 2: `ReadUint32` over the three bytes `01 02 03` gives
`io.ErrUnexpectedEOF`, `ReadInt64` over the empty buffer gives `io.EOF`. -/
theorem scalar_read_short_error_witness :
    ([(1 : Byte), 2, 3].length < 4 ∧ ([] : List Byte).length < 8) ∧
    (BinaryReader.mk (Buffer.mk [1, 2, 3]) ByteOrder.LittleEndian).ReadUint32 2 =
        Exec.ret (0, some Error.ErrUnexpectedEOF, ⟨⟨[]⟩, ByteOrder.LittleEndian⟩) ∧
    (BinaryReader.mk (Buffer.mk []) ByteOrder.LittleEndian).ReadInt64 2 =
        Exec.ret (0, some Error.EOF, ⟨⟨[]⟩, ByteOrder.LittleEndian⟩) :=
  ⟨by decide,
    (((scalar_read_short_error 0).2.1 ByteOrder.LittleEndian [1, 2, 3] (by decide)).1).trans
      (by decide),
    (((scalar_read_short_error 0).2.2.1 ByteOrder.LittleEndian [] (by decide)).2).trans
      (by decide)⟩

/-- C10: `ReadByte` on a buffer reader whose buffer is exhausted returns the
zero byte together with a non-nil error, the buffer's `io.EOF`, for a reader
built over the empty sequence (either constructor) and for the reader left
behind once `ReadBytes` has consumed every byte of any `b` (a slice that
exists, so within the limit `m.maxAlloc` of `make`); it never reports success. -/
theorem ReadByte_exhausted_buffer :
    (BigEndianBufferReader []).toBinaryReader.ReadByte =
        (0, some Error.EOF, ⟨⟨[]⟩, ByteOrder.BigEndian⟩) ∧
    (LittleEndianBufferReader []).toBinaryReader.ReadByte =
        (0, some Error.EOF, ⟨⟨[]⟩, ByteOrder.LittleEndian⟩) ∧
    (∀ (m : Machine) (e : ByteOrder) (b : List Byte), b.length ≤ m.maxAlloc →
      ∃ r : BinaryReader Buffer,
        (BinaryReader.mk (Buffer.mk b) e).ReadBytes m b.length =
          Exec.ret (some b, none, r) ∧
        r.ReadByte = (0, some Error.EOF, r)) := by
  refine ⟨ReadByte_Buffer_nil _, ReadByte_Buffer_nil _,
    fun m e b hb => ⟨⟨⟨[]⟩, e⟩, ?_, ?_⟩⟩
  · rw [ReadBytes_Buffer_of_le m e b b.length (by omega) (le_refl _) (by omega)]
    simp
  · exact ReadByte_Buffer_nil e

/-- C10 over `[7, 8]`: once `ReadBytes(2)` has consumed both bytes, `ReadByte`
returns the zero byte and `io.EOF`. -/
theorem ReadByte_exhausted_buffer_witness :
    ([7, 8] : List Byte).length ≤ machine64.maxAlloc ∧
    ∃ r : BinaryReader Buffer,
      (BinaryReader.mk (Buffer.mk [7, 8]) ByteOrder.BigEndian).ReadBytes machine64
          (([7, 8] : List Byte).length : Int) = Exec.ret (some [7, 8], none, r) ∧
      r.ReadByte = (0, some Error.EOF, r) :=
  ⟨by decide, ReadByte_exhausted_buffer.2.2 machine64 ByteOrder.BigEndian [7, 8] (by decide)⟩

/-- C11: for every source (also one whose every `Read` reports an error or
end-of-stream) and every fuel, each of the six array reads called with
`expected = 0` returns the empty sequence with a nil error and leaves the
source in the state it was in: no `Read` call is made (whatever the limit
`m.maxAlloc` of `make`). -/
theorem array_reads_of_zero {σ : Type} [Reader σ] (m : Machine) (fuel : Nat)
    (reader : BinaryReader σ) :
    reader.ReadUint16s m fuel 0 = Exec.ret ([], none, reader) ∧
    reader.ReadInt16s m fuel 0 = Exec.ret ([], none, reader) ∧
    reader.ReadUint32s m fuel 0 = Exec.ret ([], none, reader) ∧
    reader.ReadInt32s m fuel 0 = Exec.ret ([], none, reader) ∧
    reader.ReadUint64s m fuel 0 = Exec.ret ([], none, reader) ∧
    reader.ReadInt64s m fuel 0 = Exec.ret ([], none, reader) :=
  ⟨readArray_zero m _ _ _ fuel reader, readArray_zero m _ _ _ fuel reader,
    readArray_zero m _ _ _ fuel reader, readArray_zero m _ _ _ fuel reader,
    readArray_zero m _ _ _ fuel reader, readArray_zero m _ _ _ fuel reader⟩

/-- C12: on a buffer reader over `b` with `w * k ≤ len(b)`, the array read of
`k` elements of width `w` (2, 4 or 8; unsigned and signed) returns, with a nil
error, the `k` values whose `i`-th is the decode of `b[w*i .. w*(i+1))` in the
reader's byte order, and leaves `b[w*k:]` unread; `k` successive scalar reads
of that width give the same values, error and remainder.  Here `b` is a slice
that exists, so its length is within the limit `m.maxAlloc` of `make`. -/
theorem array_read_eq_successive_scalar_reads (m : Machine) (e : ByteOrder) (b : List Byte)
    (hb : b.length ≤ m.maxAlloc) (k fuel : Nat) :
    (2 * k ≤ b.length →
      ((BinaryReader.mk (Buffer.mk b) e).ReadUint16s m (fuel + 1) k =
          Exec.ret ((List.range k).map (fun i => e.Uint16 ((b.drop (2 * i)).take 2)), none,
            ⟨⟨b.drop (2 * k)⟩, e⟩) ∧
        successiveReads (fun r => r.ReadUint16 (fuel + 1)) k (BinaryReader.mk (Buffer.mk b) e) =
          (BinaryReader.mk (Buffer.mk b) e).ReadUint16s m (fuel + 1) k) ∧
      ((BinaryReader.mk (Buffer.mk b) e).ReadInt16s m (fuel + 1) k =
          Exec.ret ((List.range k).map
              (fun i => toSigned 16 (e.Uint16 ((b.drop (2 * i)).take 2))), none,
            ⟨⟨b.drop (2 * k)⟩, e⟩) ∧
        successiveReads (fun r => r.ReadInt16 (fuel + 1)) k (BinaryReader.mk (Buffer.mk b) e) =
          (BinaryReader.mk (Buffer.mk b) e).ReadInt16s m (fuel + 1) k)) ∧
    (4 * k ≤ b.length →
      ((BinaryReader.mk (Buffer.mk b) e).ReadUint32s m (fuel + 1) k =
          Exec.ret ((List.range k).map (fun i => e.Uint32 ((b.drop (4 * i)).take 4)), none,
            ⟨⟨b.drop (4 * k)⟩, e⟩) ∧
        successiveReads (fun r => r.ReadUint32 (fuel + 1)) k (BinaryReader.mk (Buffer.mk b) e) =
          (BinaryReader.mk (Buffer.mk b) e).ReadUint32s m (fuel + 1) k) ∧
      ((BinaryReader.mk (Buffer.mk b) e).ReadInt32s m (fuel + 1) k =
          Exec.ret ((List.range k).map
              (fun i => toSigned 32 (e.Uint32 ((b.drop (4 * i)).take 4))), none,
            ⟨⟨b.drop (4 * k)⟩, e⟩) ∧
        successiveReads (fun r => r.ReadInt32 (fuel + 1)) k (BinaryReader.mk (Buffer.mk b) e) =
          (BinaryReader.mk (Buffer.mk b) e).ReadInt32s m (fuel + 1) k)) ∧
    (8 * k ≤ b.length →
      ((BinaryReader.mk (Buffer.mk b) e).ReadUint64s m (fuel + 1) k =
          Exec.ret ((List.range k).map (fun i => e.Uint64 ((b.drop (8 * i)).take 8)), none,
            ⟨⟨b.drop (8 * k)⟩, e⟩) ∧
        successiveReads (fun r => r.ReadUint64 (fuel + 1)) k (BinaryReader.mk (Buffer.mk b) e) =
          (BinaryReader.mk (Buffer.mk b) e).ReadUint64s m (fuel + 1) k) ∧
      ((BinaryReader.mk (Buffer.mk b) e).ReadInt64s m (fuel + 1) k =
          Exec.ret ((List.range k).map
              (fun i => toSigned 64 (e.Uint64 ((b.drop (8 * i)).take 8))), none,
            ⟨⟨b.drop (8 * k)⟩, e⟩) ∧
        successiveReads (fun r => r.ReadInt64 (fuel + 1)) k (BinaryReader.mk (Buffer.mk b) e) =
          (BinaryReader.mk (Buffer.mk b) e).ReadInt64s m (fuel + 1) k)) := by
  have a16 := readArray_Buffer_of_le 0 2 e.Uint16 (Uint16_local e) m e b k fuel
  have s16 := readArray_Buffer_of_le 0 2 (fun bs => toSigned 16 (e.Uint16 bs))
    (fun l l2 h => congrArg (toSigned 16) (Uint16_local e l l2 h)) m e b k fuel
  have a32 := readArray_Buffer_of_le 0 4 e.Uint32 (Uint32_local e) m e b k fuel
  have s32 := readArray_Buffer_of_le 0 4 (fun bs => toSigned 32 (e.Uint32 bs))
    (fun l l2 h => congrArg (toSigned 32) (Uint32_local e l l2 h)) m e b k fuel
  have a64 := readArray_Buffer_of_le 0 8 e.Uint64 (Uint64_local e) m e b k fuel
  have s64 := readArray_Buffer_of_le 0 8 (fun bs => toSigned 64 (e.Uint64 bs))
    (fun l l2 h => congrArg (toSigned 64) (Uint64_local e l l2 h)) m e b k fuel
  refine ⟨fun h => ?_, fun h => ?_, fun h => ?_⟩
  · have hm : 2 * k ≤ m.maxAlloc := by omega
    exact ⟨⟨a16 hm h, (successiveReads_Buffer_of_le 2 e.Uint16 e (fun r => r.ReadUint16 (fuel + 1))
        (fun b2 h2 => readScalar_Buffer_of_le 0 2 e.Uint16 e b2 fuel h2) k b h).trans
        (a16 hm h).symm⟩, ⟨s16 hm h, (successiveReads_Buffer_of_le 2 (fun bs => toSigned 16 (e.Uint16 bs)) e
        (fun r => r.ReadInt16 (fuel + 1))
        (fun b2 h2 => readScalar_Buffer_of_le 0 2 (fun bs => toSigned 16 (e.Uint16 bs)) e b2
          fuel h2) k b h).trans (s16 hm h).symm⟩⟩
  · have hm : 4 * k ≤ m.maxAlloc := by omega
    exact ⟨⟨a32 hm h, (successiveReads_Buffer_of_le 4 e.Uint32 e (fun r => r.ReadUint32 (fuel + 1))
        (fun b2 h2 => readScalar_Buffer_of_le 0 4 e.Uint32 e b2 fuel h2) k b h).trans
        (a32 hm h).symm⟩, ⟨s32 hm h, (successiveReads_Buffer_of_le 4 (fun bs => toSigned 32 (e.Uint32 bs)) e
        (fun r => r.ReadInt32 (fuel + 1))
        (fun b2 h2 => readScalar_Buffer_of_le 0 4 (fun bs => toSigned 32 (e.Uint32 bs)) e b2
          fuel h2) k b h).trans (s32 hm h).symm⟩⟩
  · have hm : 8 * k ≤ m.maxAlloc := by omega
    exact ⟨⟨a64 hm h, (successiveReads_Buffer_of_le 8 e.Uint64 e (fun r => r.ReadUint64 (fuel + 1))
        (fun b2 h2 => readScalar_Buffer_of_le 0 8 e.Uint64 e b2 fuel h2) k b h).trans
        (a64 hm h).symm⟩, ⟨s64 hm h, (successiveReads_Buffer_of_le 8 (fun bs => toSigned 64 (e.Uint64 bs)) e
        (fun r => r.ReadInt64 (fuel + 1))
        (fun b2 h2 => readScalar_Buffer_of_le 0 8 (fun bs => toSigned 64 (e.Uint64 bs)) e b2
          fuel h2) k b h).trans (s64 hm h).symm⟩⟩

/-- C12 over `00 01 00 02 00 03`, big-endian, `k = 2`: `ReadUint16s(2)` gives
`[1, 2]` and leaves `00 03`, and so do two `ReadUint16` calls in a row. -/
theorem array_read_eq_successive_scalar_reads_witness :
    ([(0 : Byte), 1, 0, 2, 0, 3].length ≤ machine64.maxAlloc ∧
      2 * 2 ≤ [(0 : Byte), 1, 0, 2, 0, 3].length) ∧
    (BinaryReader.mk (Buffer.mk [0, 1, 0, 2, 0, 3]) ByteOrder.BigEndian).ReadUint16s machine64
        1 2 =
        Exec.ret ([1, 2], none, ⟨⟨[0, 3]⟩, ByteOrder.BigEndian⟩) ∧
    successiveReads (fun r => r.ReadUint16 1) 2
        (BinaryReader.mk (Buffer.mk [0, 1, 0, 2, 0, 3]) ByteOrder.BigEndian) =
      Exec.ret ([1, 2], none, ⟨⟨[0, 3]⟩, ByteOrder.BigEndian⟩) :=
  ⟨by decide,
    (((array_read_eq_successive_scalar_reads machine64 ByteOrder.BigEndian
      [0, 1, 0, 2, 0, 3] (by decide) 2 0).1 (by decide)).1.1).trans (by decide),
    (((array_read_eq_successive_scalar_reads machine64 ByteOrder.BigEndian
      [0, 1, 0, 2, 0, 3] (by decide) 2 0).1 (by decide)).1.2).trans (by decide)⟩

/-- C13: on a buffer reader over `b` with at least 4 (resp. 8) bytes,
`ReadUint32` (resp. `ReadUint64`) returns, with a nil error, the sum over
`i < w` of `b[i] * 256^(w-1-i)` for the big-endian reader and of
`b[i] * 256^i` for the little-endian reader, `w` being 4 (resp. 8), and leaves
`b[w:]` unread; only `b[0..w)` enters the value. -/
theorem ReadUint32_ReadUint64_positional (b : List Byte) (fuel : Nat) :
    (∀ h4 : 4 ≤ b.length,
      (BigEndianBufferReader b).toBinaryReader.ReadUint32 (fuel + 1) =
          Exec.ret (∑ i : Fin 4, b[i.val].val * 256 ^ (3 - i.val), none,
            ⟨⟨b.drop 4⟩, ByteOrder.BigEndian⟩) ∧
      (LittleEndianBufferReader b).toBinaryReader.ReadUint32 (fuel + 1) =
          Exec.ret (∑ i : Fin 4, b[i.val].val * 256 ^ i.val, none,
            ⟨⟨b.drop 4⟩, ByteOrder.LittleEndian⟩)) ∧
    (∀ h8 : 8 ≤ b.length,
      (BigEndianBufferReader b).toBinaryReader.ReadUint64 (fuel + 1) =
          Exec.ret (∑ i : Fin 8, b[i.val].val * 256 ^ (7 - i.val), none,
            ⟨⟨b.drop 8⟩, ByteOrder.BigEndian⟩) ∧
      (LittleEndianBufferReader b).toBinaryReader.ReadUint64 (fuel + 1) =
          Exec.ret (∑ i : Fin 8, b[i.val].val * 256 ^ i.val, none,
            ⟨⟨b.drop 8⟩, ByteOrder.LittleEndian⟩)) := by
  have c3 : ((3 : Fin 4) : Nat) = 3 := rfl
  have d3 : ((3 : Fin 8) : Nat) = 3 := rfl
  have d4 : ((4 : Fin 8) : Nat) = 4 := rfl
  have d5 : ((5 : Fin 8) : Nat) = 5 := rfl
  have d6 : ((6 : Fin 8) : Nat) = 6 := rfl
  have d7 : ((7 : Fin 8) : Nat) = 7 := rfl
  refine ⟨fun h4 => ⟨?_, ?_⟩, fun h8 => ⟨?_, ?_⟩⟩
  · simp only [BigEndianBufferReader, NewBuffer, BinaryReader.ReadUint32]
    rw [readScalar_Buffer_of_le _ _ _ _ _ _ h4, Uint32_BigEndian_eq,
      byteAt_take _ _ _ (by omega), byteAt_take _ _ _ (by omega), byteAt_take _ _ _ (by omega),
      byteAt_take _ _ _ (by omega), byteAt_eq_getElem b 0 (by omega),
      byteAt_eq_getElem b 1 (by omega), byteAt_eq_getElem b 2 (by omega),
      byteAt_eq_getElem b 3 (by omega), Fin.sum_univ_four]
    simp only [List.get_eq_getElem, Fin.val_zero, Fin.val_one, Fin.val_two, c3]
    congr 2
    norm_num
  · simp only [LittleEndianBufferReader, NewBuffer, BinaryReader.ReadUint32]
    rw [readScalar_Buffer_of_le _ _ _ _ _ _ h4, Uint32_LittleEndian_eq,
      byteAt_take _ _ _ (by omega), byteAt_take _ _ _ (by omega), byteAt_take _ _ _ (by omega),
      byteAt_take _ _ _ (by omega), byteAt_eq_getElem b 0 (by omega),
      byteAt_eq_getElem b 1 (by omega), byteAt_eq_getElem b 2 (by omega),
      byteAt_eq_getElem b 3 (by omega), Fin.sum_univ_four]
    simp only [List.get_eq_getElem, Fin.val_zero, Fin.val_one, Fin.val_two, c3]
    congr 2
    norm_num
  · simp only [BigEndianBufferReader, NewBuffer, BinaryReader.ReadUint64]
    rw [readScalar_Buffer_of_le _ _ _ _ _ _ h8, Uint64_BigEndian_eq,
      byteAt_take _ _ _ (by omega), byteAt_take _ _ _ (by omega), byteAt_take _ _ _ (by omega),
      byteAt_take _ _ _ (by omega), byteAt_take _ _ _ (by omega), byteAt_take _ _ _ (by omega),
      byteAt_take _ _ _ (by omega), byteAt_take _ _ _ (by omega),
      byteAt_eq_getElem b 0 (by omega), byteAt_eq_getElem b 1 (by omega),
      byteAt_eq_getElem b 2 (by omega), byteAt_eq_getElem b 3 (by omega),
      byteAt_eq_getElem b 4 (by omega), byteAt_eq_getElem b 5 (by omega),
      byteAt_eq_getElem b 6 (by omega), byteAt_eq_getElem b 7 (by omega), Fin.sum_univ_eight]
    simp only [List.get_eq_getElem, Fin.val_zero, Fin.val_one, Fin.val_two, d3, d4, d5, d6, d7]
    congr 2
    norm_num
  · simp only [LittleEndianBufferReader, NewBuffer, BinaryReader.ReadUint64]
    rw [readScalar_Buffer_of_le _ _ _ _ _ _ h8, Uint64_LittleEndian_eq,
      byteAt_take _ _ _ (by omega), byteAt_take _ _ _ (by omega), byteAt_take _ _ _ (by omega),
      byteAt_take _ _ _ (by omega), byteAt_take _ _ _ (by omega), byteAt_take _ _ _ (by omega),
      byteAt_take _ _ _ (by omega), byteAt_take _ _ _ (by omega),
      byteAt_eq_getElem b 0 (by omega), byteAt_eq_getElem b 1 (by omega),
      byteAt_eq_getElem b 2 (by omega), byteAt_eq_getElem b 3 (by omega),
      byteAt_eq_getElem b 4 (by omega), byteAt_eq_getElem b 5 (by omega),
      byteAt_eq_getElem b 6 (by omega), byteAt_eq_getElem b 7 (by omega), Fin.sum_univ_eight]
    simp only [List.get_eq_getElem, Fin.val_zero, Fin.val_one, Fin.val_two, d3, d4, d5, d6, d7]
    congr 2
    norm_num

/-- C13 over `01 02 03 04 05 06 07 08 09`: `ReadUint32` gives 0x01020304
(big-endian) and 0x04030201 (little-endian), `ReadUint64` gives
0x0102030405060708 and 0x0807060504030201; the ninth byte stays unread. -/
theorem ReadUint32_ReadUint64_positional_witness :
    (4 ≤ [(1 : Byte), 2, 3, 4, 5, 6, 7, 8, 9].length ∧
      8 ≤ [(1 : Byte), 2, 3, 4, 5, 6, 7, 8, 9].length) ∧
    ((BigEndianBufferReader [1, 2, 3, 4, 5, 6, 7, 8, 9]).toBinaryReader.ReadUint32 1 =
        Exec.ret (0x01020304, none, ⟨⟨[5, 6, 7, 8, 9]⟩, ByteOrder.BigEndian⟩) ∧
      (LittleEndianBufferReader [1, 2, 3, 4, 5, 6, 7, 8, 9]).toBinaryReader.ReadUint32 1 =
        Exec.ret (0x04030201, none, ⟨⟨[5, 6, 7, 8, 9]⟩, ByteOrder.LittleEndian⟩)) ∧
    ((BigEndianBufferReader [1, 2, 3, 4, 5, 6, 7, 8, 9]).toBinaryReader.ReadUint64 1 =
        Exec.ret (0x0102030405060708, none, ⟨⟨[9]⟩, ByteOrder.BigEndian⟩) ∧
      (LittleEndianBufferReader [1, 2, 3, 4, 5, 6, 7, 8, 9]).toBinaryReader.ReadUint64 1 =
        Exec.ret (0x0807060504030201, none, ⟨⟨[9]⟩, ByteOrder.LittleEndian⟩)) :=
  ⟨by decide,
    ⟨((ReadUint32_ReadUint64_positional [1, 2, 3, 4, 5, 6, 7, 8, 9] 0).1 (by decide)).1.trans
        (by decide),
      ((ReadUint32_ReadUint64_positional [1, 2, 3, 4, 5, 6, 7, 8, 9] 0).1 (by decide)).2.trans
        (by decide)⟩,
    ⟨((ReadUint32_ReadUint64_positional [1, 2, 3, 4, 5, 6, 7, 8, 9] 0).2 (by decide)).1.trans
        (by decide),
      ((ReadUint32_ReadUint64_positional [1, 2, 3, 4, 5, 6, 7, 8, 9] 0).2 (by decide)).2.trans
        (by decide)⟩⟩

/-- C14: for `0 ≤ N ≤ len(b)`, `Skip(N)` on a buffer reader over `b` (a slice
that exists, so within the limit `m.maxAlloc` of `make`) returns a nil error and
leaves exactly `b[N:]` unread, so that a following `ReadByte`, when
`N < len(b)`, returns `b[N]`; and for every source, every count and every
limit of `make`, `Skip` returns the error, and leaves the source in the state,
that `ReadBytes` with the same count does. -/
theorem Skip_discards_like_ReadBytes (m : Machine) (b : List Byte)
    (hb : b.length ≤ m.maxAlloc) (N : Int) (h0 : 0 ≤ N) (h : N ≤ b.length) :
    ((BigEndianBufferReader b).toBinaryReader.Skip m N =
        Exec.ret (none, ⟨⟨b.drop N.toNat⟩, ByteOrder.BigEndian⟩) ∧
      (LittleEndianBufferReader b).toBinaryReader.Skip m N =
        Exec.ret (none, ⟨⟨b.drop N.toNat⟩, ByteOrder.LittleEndian⟩)) ∧
    (∀ (e : ByteOrder) (hlt : N.toNat < b.length),
      (BinaryReader.mk (Buffer.mk (b.drop N.toNat)) e).ReadByte =
        (b[N.toNat], none, ⟨⟨b.drop (N.toNat + 1)⟩, e⟩)) ∧
    (∀ {σ : Type} [Reader σ] (m2 : Machine) (reader : BinaryReader σ) (M : Int),
      reader.Skip m2 M =
        match reader.ReadBytes m2 M with
        | Exec.ret (_, err, r) => Exec.ret (err, r)
        | Exec.panic => Exec.panic
        | Exec.timeout => Exec.timeout) := by
  refine ⟨⟨Skip_Buffer_of_le m _ b N h0 h (by omega),
    Skip_Buffer_of_le m _ b N h0 h (by omega)⟩, fun e hlt => ?_,
    fun m2 reader M => Skip_eq_ReadBytes m2 reader M⟩
  rw [List.drop_eq_getElem_cons hlt, ReadByte_Buffer_cons]

/-- C14 at `N = 2` over `[1, 2, 3, 4]`: `Skip(2)` leaves `[3, 4]` and the next
`ReadByte` returns 3. -/
theorem Skip_discards_like_ReadBytes_witness :
    (([1, 2, 3, 4] : List Byte).length ≤ machine64.maxAlloc ∧ (0 : Int) ≤ 2 ∧
      (2 : Int) ≤ ([1, 2, 3, 4] : List Byte).length) ∧
    (BigEndianBufferReader [1, 2, 3, 4]).toBinaryReader.Skip machine64 2 =
        Exec.ret (none, ⟨⟨[3, 4]⟩, ByteOrder.BigEndian⟩) ∧
    (BinaryReader.mk (Buffer.mk [3, 4]) ByteOrder.BigEndian).ReadByte =
        (3, none, ⟨⟨[4]⟩, ByteOrder.BigEndian⟩) :=
  ⟨by decide,
    (Skip_discards_like_ReadBytes machine64 [1, 2, 3, 4] (by decide) 2 (by decide)
      (by decide)).1.1.trans (by decide),
    ((Skip_discards_like_ReadBytes machine64 [1, 2, 3, 4] (by decide) 2 (by decide)
      (by decide)).2.1 ByteOrder.BigEndian (by decide)).trans (by decide)⟩

/-- C15 fails as stated: over a source whose every read call reports the error
`other 7`, `ReadBytes(1<<62)` and `Skip(1<<62)` on a machine whose `make`
serves at most `2^48` bytes, and `ReadBytes(-1)` and `Skip(-1)` on any machine,
panic in `make`; they do not return `other 7`. -/
theorem ReadBytes_Skip_unserved_count_panic :
    (Reader.Read (DataErrReader.mk [1, 2, 3] (some (Error.other 7)))
        (4611686018427387904 : Int).toNat).err = some (Error.other 7) ∧
    (BigEndianReaderFrom (DataErrReader.mk [1, 2, 3] (some (Error.other 7)))).ReadBytes
        machine64 4611686018427387904 = Exec.panic ∧
    (BigEndianReaderFrom (DataErrReader.mk [1, 2, 3] (some (Error.other 7)))).Skip
        machine64 4611686018427387904 = Exec.panic ∧
    (BigEndianReaderFrom (DataErrReader.mk [1, 2, 3] (some (Error.other 7)))).ReadBytes
        machine64 (-1) = Exec.panic ∧
    (BigEndianReaderFrom (DataErrReader.mk [1, 2, 3] (some (Error.other 7)))).Skip
        machine64 (-1) = Exec.panic := by
  decide

/-- C15 (amended): for every source whose read call reports a non-nil error
`err`, whatever bytes it hands over alongside, `ReadByte` returns the zero byte
and `err`, and for every count `N` that `make` serves (`0 ≤ N ≤ m.maxAlloc`)
`ReadBytes(N)` returns a nil slice and `err` and `Skip(N)` returns `err`: the
source's error comes back unchanged, the byte count is not looked at, and
`ErrShortRead` is not put in its place.  For a negative count and for one above
`m.maxAlloc`, `ReadBytes(N)` and `Skip(N)` panic before any read call. -/
theorem source_error_returned_unchanged {σ : Type} [Reader σ] (m : Machine)
    (reader : BinaryReader σ) (err : Error) :
    ((Reader.Read reader.raw 1).err = some err →
      reader.ReadByte = (0, some err, ⟨(Reader.Read reader.raw 1).next, reader.endian⟩)) ∧
    (∀ N : Int, 0 ≤ N → N ≤ m.maxAlloc → (Reader.Read reader.raw N.toNat).err = some err →
      reader.ReadBytes m N =
          Exec.ret (none, some err, ⟨(Reader.Read reader.raw N.toNat).next, reader.endian⟩) ∧
      reader.Skip m N =
          Exec.ret (some err, ⟨(Reader.Read reader.raw N.toNat).next, reader.endian⟩)) ∧
    (∀ N : Int, N < 0 ∨ (m.maxAlloc : Int) < N →
      reader.ReadBytes m N = Exec.panic ∧ reader.Skip m N = Exec.panic) :=
  ⟨fun h => ReadByte_of_read_error reader err h,
    fun N h0 hm h => ⟨ReadBytes_of_read_error m reader N err h0 hm h,
      Skip_of_read_error m reader N err h0 hm h⟩,
    fun N h => ⟨ReadBytes_panics m reader N h, Skip_panics m reader N h⟩⟩

/-- C15 (amended) over a source that hands over the full count together with
the error `other 7`: `ReadByte`, `ReadBytes(2)` and `Skip(2)` all return
`other 7`, and no data. -/
theorem source_error_returned_unchanged_witness :
    ((Reader.Read (BigEndianReaderFrom (DataErrReader.mk [1, 2, 3] (some (Error.other 7)))).raw
          1).err = some (Error.other 7) ∧
      (0 : Int) ≤ 2 ∧ (2 : Int) ≤ machine64.maxAlloc ∧
      (Reader.Read (BigEndianReaderFrom (DataErrReader.mk [1, 2, 3] (some (Error.other 7)))).raw
          (2 : Int).toNat) = ⟨[1, 2], some (Error.other 7), ⟨[1, 2, 3], some (Error.other 7)⟩⟩) ∧
    (BigEndianReaderFrom (DataErrReader.mk [1, 2, 3] (some (Error.other 7)))).ReadByte =
        (0, some (Error.other 7),
          BigEndianReaderFrom (DataErrReader.mk [1, 2, 3] (some (Error.other 7)))) ∧
    (BigEndianReaderFrom (DataErrReader.mk [1, 2, 3] (some (Error.other 7)))).ReadBytes
        machine64 2 =
        Exec.ret (none, some (Error.other 7),
          BigEndianReaderFrom (DataErrReader.mk [1, 2, 3] (some (Error.other 7)))) ∧
    (BigEndianReaderFrom (DataErrReader.mk [1, 2, 3] (some (Error.other 7)))).Skip
        machine64 2 =
        Exec.ret (some (Error.other 7),
          BigEndianReaderFrom (DataErrReader.mk [1, 2, 3] (some (Error.other 7)))) :=
  ⟨by decide,
    ((source_error_returned_unchanged machine64
      (BigEndianReaderFrom (DataErrReader.mk [1, 2, 3] (some (Error.other 7))))
      (Error.other 7)).1 (by decide)).trans (by decide),
    ((source_error_returned_unchanged machine64
      (BigEndianReaderFrom (DataErrReader.mk [1, 2, 3] (some (Error.other 7))))
      (Error.other 7)).2.1 2 (by decide) (by decide) (by decide)).1.trans (by decide),
    ((source_error_returned_unchanged machine64
      (BigEndianReaderFrom (DataErrReader.mk [1, 2, 3] (some (Error.other 7))))
      (Error.other 7)).2.1 2 (by decide) (by decide) (by decide)).2.trans (by decide)⟩

/-- C16: for each width (16, 32, 64 bits), each byte order and every buffer
holding at least that many bits, the unsigned read returns some `u` below
`2^w` and the signed read, on the same bytes, returns `u` when `u < 2^(w-1)`
and `u - 2^w` otherwise, with the same nil error and the same remainder. -/
theorem signed_read_is_twos_complement (e : ByteOrder) (b : List Byte) (fuel : Nat) :
    (2 ≤ b.length → ∃ u : Nat, u < 2 ^ 16 ∧
      (BinaryReader.mk (Buffer.mk b) e).ReadUint16 (fuel + 1) =
          Exec.ret (u, none, ⟨⟨b.drop 2⟩, e⟩) ∧
      (BinaryReader.mk (Buffer.mk b) e).ReadInt16 (fuel + 1) =
          Exec.ret (if u < 2 ^ 15 then (u : Int) else (u : Int) - 2 ^ 16, none,
            ⟨⟨b.drop 2⟩, e⟩)) ∧
    (4 ≤ b.length → ∃ u : Nat, u < 2 ^ 32 ∧
      (BinaryReader.mk (Buffer.mk b) e).ReadUint32 (fuel + 1) =
          Exec.ret (u, none, ⟨⟨b.drop 4⟩, e⟩) ∧
      (BinaryReader.mk (Buffer.mk b) e).ReadInt32 (fuel + 1) =
          Exec.ret (if u < 2 ^ 31 then (u : Int) else (u : Int) - 2 ^ 32, none,
            ⟨⟨b.drop 4⟩, e⟩)) ∧
    (8 ≤ b.length → ∃ u : Nat, u < 2 ^ 64 ∧
      (BinaryReader.mk (Buffer.mk b) e).ReadUint64 (fuel + 1) =
          Exec.ret (u, none, ⟨⟨b.drop 8⟩, e⟩) ∧
      (BinaryReader.mk (Buffer.mk b) e).ReadInt64 (fuel + 1) =
          Exec.ret (if u < 2 ^ 63 then (u : Int) else (u : Int) - 2 ^ 64, none,
            ⟨⟨b.drop 8⟩, e⟩)) := by
  refine ⟨fun h => ⟨e.Uint16 (b.take 2), Uint16_lt e _, ?_, ?_⟩,
    fun h => ⟨e.Uint32 (b.take 4), Uint32_lt e _, ?_, ?_⟩,
    fun h => ⟨e.Uint64 (b.take 8), Uint64_lt e _, ?_, ?_⟩⟩
  · exact readScalar_Buffer_of_le 0 2 e.Uint16 e b fuel h
  · rw [← toSigned_of_lt 16 _ (Uint16_lt e _)]
    exact readScalar_Buffer_of_le 0 2 (fun bs => toSigned 16 (e.Uint16 bs)) e b fuel h
  · exact readScalar_Buffer_of_le 0 4 e.Uint32 e b fuel h
  · rw [← toSigned_of_lt 32 _ (Uint32_lt e _)]
    exact readScalar_Buffer_of_le 0 4 (fun bs => toSigned 32 (e.Uint32 bs)) e b fuel h
  · exact readScalar_Buffer_of_le 0 8 e.Uint64 e b fuel h
  · rw [← toSigned_of_lt 64 _ (Uint64_lt e _)]
    exact readScalar_Buffer_of_le 0 8 (fun bs => toSigned 64 (e.Uint64 bs)) e b fuel h

/-- C16 over the bytes `FF FF`, big-endian: the unsigned read gives 65535, the
signed read gives -1. -/
theorem signed_read_is_twos_complement_witness :
    2 ≤ [(0xFF : Byte), 0xFF].length ∧
    (BinaryReader.mk (Buffer.mk [0xFF, 0xFF]) ByteOrder.BigEndian).ReadUint16 1 =
        Exec.ret (65535, none, ⟨⟨[]⟩, ByteOrder.BigEndian⟩) ∧
    (BinaryReader.mk (Buffer.mk [0xFF, 0xFF]) ByteOrder.BigEndian).ReadInt16 1 =
        Exec.ret (-1, none, ⟨⟨[]⟩, ByteOrder.BigEndian⟩) := by
  obtain ⟨u, _, h1, h2⟩ :=
    (signed_read_is_twos_complement ByteOrder.BigEndian [0xFF, 0xFF] 0).1 (by decide)
  have hv : (BinaryReader.mk (Buffer.mk [0xFF, 0xFF]) ByteOrder.BigEndian).ReadUint16 1 =
      Exec.ret (65535, none, ⟨⟨[]⟩, ByteOrder.BigEndian⟩) := by decide
  have hu : u = 65535 := by
    have h3 := h1.symm.trans hv
    simp only [Exec.ret.injEq, Prod.mk.injEq] at h3
    exact h3.1
  subst hu
  exact ⟨by decide, hv, h2.trans (by decide)⟩

/-- C17 fails as stated: over the non-empty buffer `01 02 03`, shorter than
`1<<62`, `ReadBytes(1<<62)` and `Skip(1<<62)` on a machine whose `make` serves
at most `2^48` bytes panic in `make`, before the buffer is read at all; they
neither return `ErrShortRead` nor consume the buffer. -/
theorem ReadBytes_Skip_over_limit_leave_buffer :
    (([1, 2, 3] : List Byte) ≠ [] ∧
      (([1, 2, 3] : List Byte).length : Int) < 4611686018427387904) ∧
    (BinaryReader.mk (Buffer.mk [1, 2, 3]) ByteOrder.LittleEndian).ReadBytes machine64
        4611686018427387904 = Exec.panic ∧
    (BinaryReader.mk (Buffer.mk [1, 2, 3]) ByteOrder.LittleEndian).Skip machine64
        4611686018427387904 = Exec.panic := by
  decide

/-- C17 (amended): on a buffer reader over a non-empty `b` with `len(b) < N`,
for a count `N` that `make` serves (`N ≤ m.maxAlloc`), `ReadBytes(N)` returns a
nil slice and `ErrShortRead`, `Skip(N)` returns `ErrShortRead`, and each leaves
the buffer empty: all of `b` was consumed.  A following `ReadByte` therefore
fails with the buffer's `io.EOF`, whereas a `ReadByte` in place of the failed
call would have returned the first byte of `b`.  For a count above `m.maxAlloc`
both calls panic before the buffer is read. -/
theorem failed_ReadBytes_Skip_drain_buffer (m : Machine) (e : ByteOrder) (b : List Byte)
    (N : Int) (hb : b ≠ []) (h : (b.length : Int) < N) :
    (N ≤ m.maxAlloc →
      (BinaryReader.mk (Buffer.mk b) e).ReadBytes m N =
          Exec.ret (none, some Error.ErrShortRead, ⟨⟨[]⟩, e⟩) ∧
      (BinaryReader.mk (Buffer.mk b) e).Skip m N =
          Exec.ret (some Error.ErrShortRead, ⟨⟨[]⟩, e⟩) ∧
      (BinaryReader.mk (Buffer.mk []) e).ReadByte = (0, some Error.EOF, ⟨⟨[]⟩, e⟩) ∧
      (BinaryReader.mk (Buffer.mk b) e).ReadByte = (b.head hb, none, ⟨⟨b.tail⟩, e⟩)) ∧
    ((m.maxAlloc : Int) < N →
      (BinaryReader.mk (Buffer.mk b) e).ReadBytes m N = Exec.panic ∧
      (BinaryReader.mk (Buffer.mk b) e).Skip m N = Exec.panic) := by
  refine ⟨fun hm => ⟨ReadBytes_Buffer_short m e b N hm hb h, ?_, ReadByte_Buffer_nil e, ?_⟩,
    fun hm => ⟨ReadBytes_panics m _ N (Or.inr hm), Skip_panics m _ N (Or.inr hm)⟩⟩
  · rw [Skip_Buffer_short m e b N hm h]
    simp [hb]
  · cases b with
    | nil => exact absurd rfl hb
    | cons x xs => exact ReadByte_Buffer_cons e x xs

/-- C17 (amended) at `N = 3` over `[5, 6]`: both calls fail with `ErrShortRead`
and leave nothing unread. -/
theorem failed_ReadBytes_Skip_drain_buffer_witness :
    (([5, 6] : List Byte) ≠ [] ∧ (([5, 6] : List Byte).length : Int) < 3 ∧
      (3 : Int) ≤ machine64.maxAlloc) ∧
    (BinaryReader.mk (Buffer.mk [5, 6]) ByteOrder.LittleEndian).ReadBytes machine64 3 =
        Exec.ret (none, some Error.ErrShortRead, ⟨⟨[]⟩, ByteOrder.LittleEndian⟩) ∧
    (BinaryReader.mk (Buffer.mk [5, 6]) ByteOrder.LittleEndian).Skip machine64 3 =
        Exec.ret (some Error.ErrShortRead, ⟨⟨[]⟩, ByteOrder.LittleEndian⟩) :=
  ⟨by decide,
    ((failed_ReadBytes_Skip_drain_buffer machine64 ByteOrder.LittleEndian [5, 6] 3 (by decide)
      (by decide)).1 (by decide)).1,
    ((failed_ReadBytes_Skip_drain_buffer machine64 ByteOrder.LittleEndian [5, 6] 3 (by decide)
      (by decide)).1 (by decide)).2.1⟩

/-- C18: for every buffer reader, in whatever state (its buffer may be
exhausted), and whatever the limit of `make`, `ReadBytes(0)` returns the empty
sequence with a nil error and `Skip(0)` returns a nil error, and each leaves
the reader as it was. -/
theorem ReadBytes_Skip_zero (m : Machine) (reader : BinaryBufferReader) :
    reader.toBinaryReader.ReadBytes m 0 =
        Exec.ret (some [], none, reader.toBinaryReader) ∧
    reader.toBinaryReader.Skip m 0 = Exec.ret (none, reader.toBinaryReader) := by
  obtain ⟨⟨⟨b⟩, e⟩⟩ := reader
  constructor
  · rw [ReadBytes_Buffer_of_le m e b 0 (le_refl _) (by omega) (by omega)]
    simp
  · rw [Skip_Buffer_of_le m e b 0 (le_refl _) (by omega) (by omega)]
    simp

/-- C19: for a byte sequence `b` of length exactly 2, 4 or 8, the unsigned
scalar read of that width on a little-endian buffer reader over `b` and the one
on a big-endian buffer reader over the reversal of `b` succeed with the same
value, each consuming its whole buffer. -/
theorem byte_order_duality (b : List Byte) (fuel : Nat) :
    (b.length = 2 → ∃ u : Nat,
      (LittleEndianBufferReader b).toBinaryReader.ReadUint16 (fuel + 1) =
          Exec.ret (u, none, ⟨⟨[]⟩, ByteOrder.LittleEndian⟩) ∧
      (BigEndianBufferReader b.reverse).toBinaryReader.ReadUint16 (fuel + 1) =
          Exec.ret (u, none, ⟨⟨[]⟩, ByteOrder.BigEndian⟩)) ∧
    (b.length = 4 → ∃ u : Nat,
      (LittleEndianBufferReader b).toBinaryReader.ReadUint32 (fuel + 1) =
          Exec.ret (u, none, ⟨⟨[]⟩, ByteOrder.LittleEndian⟩) ∧
      (BigEndianBufferReader b.reverse).toBinaryReader.ReadUint32 (fuel + 1) =
          Exec.ret (u, none, ⟨⟨[]⟩, ByteOrder.BigEndian⟩)) ∧
    (b.length = 8 → ∃ u : Nat,
      (LittleEndianBufferReader b).toBinaryReader.ReadUint64 (fuel + 1) =
          Exec.ret (u, none, ⟨⟨[]⟩, ByteOrder.LittleEndian⟩) ∧
      (BigEndianBufferReader b.reverse).toBinaryReader.ReadUint64 (fuel + 1) =
          Exec.ret (u, none, ⟨⟨[]⟩, ByteOrder.BigEndian⟩)) := by
  have key : ∀ (w : Nat) (decode : ByteOrder → List Byte → Nat) (c : List Byte)
      (en : ByteOrder), c.length = w →
      readScalar 0 w (decode en) (fuel + 1) (BinaryReader.mk (Buffer.mk c) en) =
        Exec.ret (decode en c, none, ⟨⟨[]⟩, en⟩) := by
    intro w decode c en hc
    rw [readScalar_Buffer_of_le 0 w (decode en) en c fuel (le_of_eq hc.symm),
      List.take_of_length_le (le_of_eq hc), List.drop_of_length_le (le_of_eq hc)]
  refine ⟨fun h => ⟨ByteOrder.LittleEndian.Uint16 b, ?_, ?_⟩,
    fun h => ⟨ByteOrder.LittleEndian.Uint32 b, ?_, ?_⟩,
    fun h => ⟨ByteOrder.LittleEndian.Uint64 b, ?_, ?_⟩⟩
  · exact key 2 ByteOrder.Uint16 b ByteOrder.LittleEndian h
  · rw [Uint16_LittleEndian_reverse b h]
    exact key 2 ByteOrder.Uint16 b.reverse ByteOrder.BigEndian (by simpa using h)
  · exact key 4 ByteOrder.Uint32 b ByteOrder.LittleEndian h
  · rw [Uint32_LittleEndian_reverse b h]
    exact key 4 ByteOrder.Uint32 b.reverse ByteOrder.BigEndian (by simpa using h)
  · exact key 8 ByteOrder.Uint64 b ByteOrder.LittleEndian h
  · rw [Uint64_LittleEndian_reverse b h]
    exact key 8 ByteOrder.Uint64 b.reverse ByteOrder.BigEndian (by simpa using h)

/-- C19 over `01 02 03 04`: the little-endian `ReadUint32` over it and the
big-endian `ReadUint32` over `04 03 02 01` both give 0x04030201. -/
theorem byte_order_duality_witness :
    [(1 : Byte), 2, 3, 4].length = 4 ∧
    (LittleEndianBufferReader [1, 2, 3, 4]).toBinaryReader.ReadUint32 1 =
        Exec.ret (0x04030201, none, ⟨⟨[]⟩, ByteOrder.LittleEndian⟩) ∧
    (BigEndianBufferReader [4, 3, 2, 1]).toBinaryReader.ReadUint32 1 =
        Exec.ret (0x04030201, none, ⟨⟨[]⟩, ByteOrder.BigEndian⟩) := by
  obtain ⟨u, h1, h2⟩ := (byte_order_duality [1, 2, 3, 4] 0).2.1 (by decide)
  have hv : (LittleEndianBufferReader [1, 2, 3, 4]).toBinaryReader.ReadUint32 1 =
      Exec.ret (0x04030201, none, ⟨⟨[]⟩, ByteOrder.LittleEndian⟩) := by decide
  have hu : u = 0x04030201 := by
    have h3 := h1.symm.trans hv
    simp only [Exec.ret.injEq, Prod.mk.injEq] at h3
    exact h3.1
  subst hu
  exact ⟨by decide, hv, h2⟩

end Binio
